import Mathlib

/-!
Shallow embedding of the tcmalloc-style heap allocator of this repository
(src/ostd/src/mm/heap_allocator), together with theorems settling the
frozen claims about it.

Machine integers (Rust `usize`) are modelled as `Nat`; raw pointers are
modelled by their addresses as `Nat`.  Intrusive singly linked lists
(`buddy_system_allocator::linked_list::LinkedList`) are modelled as
`List Nat` stacks: `push` is cons, `pop` takes the head.  Rust operations
that can panic (`unwrap`, out-of-bounds indexing) are embedded as
`Option`-returning functions, `none` denoting the panic.
-/

namespace Heap

/-! Compile-time parameters, from tcmalloc/common.rs and size_class.rs. -/

def K_PAGE_SHIFT : Nat := 12

def K_PAGE_SIZE : Nat := 1 <<< K_PAGE_SHIFT

def K_BASE_NUMBER_CLASSES : Nat := 44

def K_BASE_NUMBER_SPAN : Nat := 7

def K_MAX_NUMBER_SPAN : Nat := 512

def K_MAX_CPU_CACHE_SIZE : Nat := 256 * 1024

def K_MAX_OVERRANGES : Nat := 4

def K_PRIMARY_HEAP_LEN : Nat := 256

def K_FULL_SCALE : Nat := 2

def MAX_NUM_TO_MOVE : Nat := 32

/-- Value of `core::usize::MAX` on the 64-bit target. -/
def USIZE_MAX : Nat := 2 ^ 64 - 1

/-- Rust `core::alloc::Layout`: a size in bytes and an alignment. -/
structure Layout where
  size : Nat
  align : Nat
deriving DecidableEq, Repr

/-- Entry of the precomputed size-class table (size_class.rs,
`SizeClassInfo`). -/
structure SizeClassInfo where
  size : Nat
  pages : Nat
  num_to_move : Nat
  max_capacity : Nat
deriving DecidableEq, Repr

/-- The 44-entry size-class table `SIZE_CLASSES` (size_class.rs, feature
page_shift_12), transcribed value for value. -/
def SIZE_CLASSES : List SizeClassInfo :=
  [⟨8, 1, 32, 5811⟩, ⟨16, 1, 32, 5811⟩, ⟨32, 1, 32, 5811⟩, ⟨64, 1, 32, 5811⟩,
   ⟨80, 1, 32, 5811⟩, ⟨96, 1, 32, 3615⟩, ⟨112, 1, 32, 2468⟩, ⟨128, 1, 32, 2667⟩,
   ⟨144, 1, 32, 2037⟩, ⟨160, 1, 32, 2017⟩, ⟨176, 1, 32, 973⟩, ⟨192, 1, 32, 999⟩,
   ⟨208, 1, 32, 885⟩, ⟨224, 1, 32, 820⟩, ⟨240, 1, 32, 800⟩, ⟨256, 1, 32, 1226⟩,
   ⟨272, 1, 32, 582⟩, ⟨288, 1, 32, 502⟩, ⟨304, 1, 32, 460⟩, ⟨336, 1, 32, 854⟩,
   ⟨368, 1, 32, 485⟩, ⟨448, 1, 32, 559⟩, ⟨512, 1, 32, 1370⟩, ⟨576, 2, 32, 684⟩,
   ⟨640, 2, 32, 403⟩, ⟨704, 2, 32, 389⟩, ⟨768, 2, 32, 497⟩, ⟨896, 2, 32, 721⟩,
   ⟨1024, 2, 32, 3115⟩, ⟨1152, 3, 32, 451⟩, ⟨1280, 3, 32, 372⟩, ⟨1536, 3, 32, 420⟩,
   ⟨1792, 4, 32, 406⟩, ⟨2048, 4, 32, 562⟩, ⟨2304, 4, 28, 380⟩, ⟨2688, 4, 24, 394⟩,
   ⟨3200, 4, 20, 389⟩, ⟨3584, 7, 18, 409⟩, ⟨4096, 4, 16, 1430⟩, ⟨4736, 5, 13, 440⟩,
   ⟨5376, 4, 12, 361⟩, ⟨6144, 3, 10, 369⟩, ⟨7168, 7, 9, 377⟩, ⟨8192, 4, 8, 505⟩]

/-- The indexed first-match loop of `SizeClasses::match_size_class`
(size_class.rs): return the first index whose class size is at least
`size`, scanning from index `idx`. -/
def matchFrom : List SizeClassInfo → Nat → Nat → Option Nat
  | [], _, _ => none
  | info :: rest, size, idx =>
    if size ≤ info.size then some idx else matchFrom rest size (idx + 1)

/-- Embedding of `match_size_class(layout)` (size_class.rs): the alignment
of the layout is not consulted, only its size. -/
def match_size_class (layout : Layout) : Option Nat :=
  matchFrom SIZE_CLASSES layout.size 0

/-- Embedding of `get_size(size_class_idx)` (size_class.rs). -/
def get_size (size_class_idx : Nat) : Option Nat :=
  if size_class_idx < K_BASE_NUMBER_CLASSES then
    (SIZE_CLASSES.get? size_class_idx).map SizeClassInfo.size
  else
    none

/-- Embedding of `get_pages(size_class_idx)` (size_class.rs). -/
def get_pages (size_class_idx : Nat) : Option Nat :=
  if size_class_idx < K_BASE_NUMBER_CLASSES then
    (SIZE_CLASSES.get? size_class_idx).map SizeClassInfo.pages
  else
    none

/-- Embedding of `get_num_to_move(size_class_idx)` (size_class.rs). -/
def get_num_to_move (size_class_idx : Nat) : Option Nat :=
  if size_class_idx < K_BASE_NUMBER_CLASSES then
    (SIZE_CLASSES.get? size_class_idx).map SizeClassInfo.num_to_move
  else
    none

/-- Embedding of `get_capacity(size_class_idx)` (size_class.rs). -/
def get_capacity (size_class_idx : Nat) : Option Nat :=
  if size_class_idx < K_BASE_NUMBER_CLASSES then
    (SIZE_CLASSES.get? size_class_idx).map SizeClassInfo.max_capacity
  else
    none

/-! Spans and transfer batches (size_class.rs). -/

/-- Embedding of `Span` (size_class.rs): a run of `len` pages starting at
address `start`. -/
structure Span where
  len : Nat
  start : Nat
deriving DecidableEq, Repr

/-- Embedding of `TransferBatch` (size_class.rs): a fixed 32-slot pointer
array `_padding` filled up to `len`, with soft capacity `max_len`. -/
structure TransferBatch where
  padding : List Nat
  len : Nat
  max_len : Nat
deriving DecidableEq, Repr

/-- Embedding of `TransferBatch::new(max_len)`: the requested capacity is
clamped to `MAX_NUM_TO_MOVE`. -/
def TransferBatch.new (max_len : Nat) : TransferBatch :=
  ⟨List.replicate MAX_NUM_TO_MOVE 0, 0, min max_len MAX_NUM_TO_MOVE⟩

/-- Embedding of `TransferBatch::push`: the source writes
`self._padding[self.len] = ptr` before any capacity check, so the write
itself is in bounds only when `len` is below the array length (32); an
out-of-bounds write is a Rust panic, embedded as `none`.  On success it
returns the updated batch and the fullness report `len >= max_len`
(computed after the increment). -/
def TransferBatch.push (b : TransferBatch) (ptr : Nat) : Option (TransferBatch × Bool) :=
  if b.len < b.padding.length then
    some (⟨b.padding.set b.len ptr, b.len + 1, b.max_len⟩, decide (b.len + 1 ≥ b.max_len))
  else
    none

/-- Embedding of `TransferBatch::pop`: reads `_padding[len - 1]` after
decrementing; the read is guarded by `len > 0` and the index is checked
against the array length as in the source array access. -/
def TransferBatch.pop (b : TransferBatch) : Option (Nat × TransferBatch) :=
  if b.len > 0 then
    if b.len - 1 < b.padding.length then
      some (b.padding.getD (b.len - 1) 0, ⟨b.padding, b.len - 1, b.max_len⟩)
    else
      none
  else
    none

/-- Embedding of `TransferBatch::is_empty`. -/
def TransferBatch.is_empty (b : TransferBatch) : Bool :=
  b.len == 0

/-- Contents of a transfer batch: the filled prefix of the slot array. -/
def TransferBatch.contents (b : TransferBatch) : List Nat :=
  b.padding.take b.len

/-! Elastic lists (linked_list/elastic_list.rs). -/

/-- Embedding of `ElasticList`: an intrusive stack with a soft capacity
`max_len`, an `overrange` counter, and an LRU `color` counter. -/
structure ElasticList where
  list : List Nat
  len : Nat
  max_len : Nat
  color : Nat
  overrange : Nat
  max_overrange : Nat
deriving DecidableEq, Repr

/-- Embedding of `ElasticList::new`. -/
def ElasticList.new : ElasticList :=
  ⟨[], 0, 0, 0, 0, 0⟩

/-- Embedding of `ElasticList::init(max_len, max_overrange)`. -/
def ElasticList.init (l : ElasticList) (max_len max_overrange : Nat) : ElasticList :=
  { l with max_len := max_len, max_overrange := max_overrange }

/-- Embedding of `ElasticList::push`: cons the item, bump `len`, and bump
`overrange` when the new length exceeds `max_len`.  The `color` field is
not touched. -/
def ElasticList.push (l : ElasticList) (item : Nat) : ElasticList :=
  { l with
    list := item :: l.list
    len := l.len + 1
    overrange := if l.len + 1 > l.max_len then l.overrange + 1 else l.overrange }

/-- Embedding of `ElasticList::pop`: take the head.  The source decrements
`len` but does not touch `color`. -/
def ElasticList.pop (l : ElasticList) : Option (Nat × ElasticList) :=
  match l.list with
  | [] => none
  | x :: rest => some (x, { l with list := rest, len := l.len - 1 })

/-- Helper for `pop_aligned`: remove the first node of the intrusive list
whose address is aligned to `align` (Rust `ptr.is_aligned_to(align)`,
i.e. address divisible by `align`). -/
def removeFirstAligned (align : Nat) : List Nat → Option (Nat × List Nat)
  | [] => none
  | x :: rest =>
    if x % align == 0 then
      some (x, rest)
    else
      (removeFirstAligned align rest).map (fun r => (r.1, x :: r.2))

/-- Embedding of `ElasticList::pop_aligned(align)`: pop the first aligned
node; a successful removal decrements `len` and increments `color`. -/
def ElasticList.pop_aligned (l : ElasticList) (align : Nat) : Option (Nat × ElasticList) :=
  (removeFirstAligned align l.list).map fun r =>
    (r.1, { l with list := r.2, len := l.len - 1, color := l.color + 1 })

/-- Embedding of `ElasticList::is_empty` (the source tests `len == 0`). -/
def ElasticList.is_empty (l : ElasticList) : Bool :=
  l.len == 0

/-- Embedding of `ElasticList::overranged`. -/
def ElasticList.overranged (l : ElasticList) : Bool :=
  decide (l.overrange > l.max_overrange)

/-- Embedding of `ElasticList::reset`: clears only `color` and
`overrange`; the list, `len`, `max_len` and `max_overrange` are kept. -/
def ElasticList.reset (l : ElasticList) : ElasticList :=
  { l with color := 0, overrange := 0 }

/-! Bounded lists (linked_list/bounded_list.rs). -/

/-- Embedding of `BoundedList`: an intrusive stack hard-capped at
`max_len` and bound to the span address range `[base, bound)`.  The
intrusive `next` pointer chaining bounded lists into `BoundedLists` is
modelled by keeping the lists in a `List BoundedList`. -/
structure BoundedList where
  list : List Nat
  len : Nat
  max_len : Nat
  color : Nat
  base : Nat
  bound : Nat
deriving DecidableEq, Repr

/-- Embedding of `BoundedList::new`. -/
def BoundedList.new : BoundedList :=
  ⟨[], 0, 0, 0, 0, 0⟩

/-- Embedding of `BoundedList::init(base, bound)`: records the span range
and sets `max_len` to the CURRENT length `self.len` (not to any value
derived from `size`).  The source asserts `base < bound`, which holds at
every call site we consider. -/
def BoundedList.init (l : BoundedList) (base bound : Nat) : BoundedList :=
  { l with base := base, bound := bound, max_len := l.len }

/-- Embedding of `BoundedList::reset`: zero every field. -/
def BoundedList.reset (_l : BoundedList) : BoundedList :=
  ⟨[], 0, 0, 0, 0, 0⟩

/-- Embedding of `BoundedList::is_empty` (the source tests the intrusive
list itself, not `len`). -/
def BoundedList.is_empty (l : BoundedList) : Bool :=
  l.list.isEmpty

/-- Embedding of `BoundedList::is_full`: `len == max_len`.  The source
also asserts `len <= max_len`; the assertion holds on the states reached
in the theorems below and is elided here. -/
def BoundedList.is_full (l : BoundedList) : Bool :=
  l.len == l.max_len

/-- Embedding of `BoundedList::push`: cons the item, bump `len`, and
report fullness of the resulting list. -/
def BoundedList.push (l : BoundedList) (item : Nat) : BoundedList × Bool :=
  let l2 : BoundedList := { l with list := item :: l.list, len := l.len + 1 }
  (l2, l2.is_full)

/-- Embedding of `BoundedList::pop`: the fullness flag is computed before
the removal; a successful pop decrements `len` and increments `color`. -/
def BoundedList.pop (l : BoundedList) : Option ((Nat × Bool) × BoundedList) :=
  match l.list with
  | [] => none
  | x :: rest =>
    some ((x, l.is_full), { l with list := rest, len := l.len - 1, color := l.color + 1 })

/-- Embedding of `BoundedList::set_max_len`. -/
def BoundedList.set_max_len (l : BoundedList) (max_len : Nat) : BoundedList :=
  { l with max_len := max_len }

/-- Embedding of `BoundedList::unused`: empty and never popped. -/
def BoundedList.unused (l : BoundedList) : Bool :=
  l.is_empty && l.color == 0

/-- Embedding of `BoundedList::infra_metas(addr)`: address-range test
`base <= addr < bound`. -/
def BoundedList.infra_metas (l : BoundedList) (addr : Nat) : Bool :=
  decide (addr ≥ l.base) && decide (addr < l.bound)

/-! Status enums and flow modes (status.rs; the tier files also use a
fourth mode `Exit`, which the spec identifies as the four-mode draft). -/

/-- Flow mode steering the driver loop. -/
inductive FlowMod where
  | Forward
  | Circle
  | Backward
  | Exit
deriving DecidableEq, Repr

/-- States of a per-CPU cache (status.rs, `CpuCacheStat`). -/
inductive CpuCacheStat where
  | Ready
  | Alloc
  | Dealloc
  | Insufficient
  | Overranged
  | Oversized
  | Scavenge
deriving DecidableEq, Repr

/-- States of a transfer cache (status.rs, `TransferCacheStat`). -/
inductive TransferCacheStat where
  | Ready
  | Alloc
  | Dealloc
  | Empty
  | Lack
  | Oversized
  | Scavenge
  | Finish
deriving DecidableEq, Repr

/-! Transfer cache (transfer_cache.rs). -/

/-- Embedding of `TransferCache`: the chained `BoundedLists` container is
modelled as a `List BoundedList`; the raw `*mut BoundedList` slot of
`transfer_list` is modelled by the address alone. -/
structure TransferCache where
  free_lists : List BoundedList
  num : Nat
  full_num : Nat
  size_class_idx : Nat
  stat : TransferCacheStat
  transfer_batch : Option TransferBatch
  transfer_span : Option Span
  transfer_list : Option Nat
deriving DecidableEq, Repr

/-- Embedding of `TransferCache::new`. -/
def TransferCache.new : TransferCache :=
  ⟨[], 0, 0, 0, .Ready, none, none, none⟩

/-- Embedding of `TransferCache::init(size_class_idx)`: the per-element
closure built (but never run, see `TransferCaches.init`) by the container
init. -/
def TransferCache.initOne (tc : TransferCache) (size_class_idx : Nat) : TransferCache :=
  { tc with size_class_idx := size_class_idx }

/-- Embedding of `BoundedLists::lack`: no chained bounded list is unused. -/
def BoundedLists.lack (ls : List BoundedList) : Bool :=
  (ls.countP fun l => l.unused) == 0

/-- Accumulator loop of `TransferCache::hot` (transfer_cache.rs): walk the
lists with a running `(hot, color)` pair starting from
`(usize::MAX, 0)`.  In the source the color comparison
`free_list.color() >= color` is commented out, so EVERY non-empty list
overwrites `hot`, and the final value is simply the last non-empty index;
`color` is still tracked, mirroring the source. -/
def hotAux : List BoundedList → Nat → Nat → Nat → Nat × Nat
  | [], _, hot, color => (hot, color)
  | fl :: rest, idx, hot, color =>
    if !fl.is_empty then
      hotAux rest (idx + 1) idx fl.color
    else
      hotAux rest (idx + 1) hot color

/-- Embedding of `TransferCache::hot`. -/
def TransferCache.hot (tc : TransferCache) : Option Nat :=
  let r := hotAux tc.free_lists 0 USIZE_MAX 0
  if r.1 < USIZE_MAX then some r.1 else none

/-- Embedding of `TransferCache::pop(idx)`: index the chained list (the
source unwraps the lookup: `none` of the outer option is that panic),
pop it, and decrement `full_num` when the popped list was full.  The
inner option is the source's return value. -/
def TransferCache.popIdx (tc : TransferCache) (idx : Nat) : Option (Option Nat × TransferCache) :=
  match tc.free_lists.get? idx with
  | none => none
  | some fl =>
    match fl.pop with
    | none => some (none, tc)
    | some (pf, fl2) =>
      some (some pf.1,
        { tc with
          free_lists := tc.free_lists.set idx fl2
          full_num := if pf.2 then tc.full_num - 1 else tc.full_num })

/-- The unbounded `loop` of `TransferCache::alloc_batch`, run on explicit
fuel: find the hot list, pop from it, push into the batch, and stop when
the pop fails, the batch reports full, or no list is non-empty. -/
def allocLoop (tc : TransferCache) (batch : TransferBatch) : Nat → Option (TransferCache × TransferBatch)
  | 0 => none
  | fuel + 1 =>
    match tc.hot with
    | none => some (tc, batch)
    | some hot =>
      match tc.popIdx hot with
      | none => none
      | some (none, tc2) => some (tc2, batch)
      | some (some ptr, tc2) =>
        match batch.push ptr with
        | none => none
        | some (batch2, full) =>
          if full then some (tc2, batch2) else allocLoop tc2 batch2 fuel

/-- Total number of free objects across the bounded lists; used as fuel
for the alloc-batch loop. -/
def totalObjects (ls : List BoundedList) : Nat :=
  ls.foldr (fun l acc => l.list.length + acc) 0

/-- Embedding of `TransferCache::alloc_batch`: assemble a batch of up to
`num_to_move` objects, then set the status from the outcome (`Lack` when
the batch is empty and no unused slot exists, `Empty` when the batch is
empty but a slot exists, `Finish` otherwise). -/
def TransferCache.alloc_batch (tc : TransferCache) : Option TransferCache :=
  match get_num_to_move tc.size_class_idx with
  | none => none
  | some n =>
    match allocLoop tc (TransferBatch.new n) (totalObjects tc.free_lists + 1) with
    | none => none
    | some (tc2, batch) =>
      if batch.is_empty then
        if BoundedLists.lack tc2.free_lists then
          some { tc2 with stat := .Lack }
        else
          some { tc2 with stat := .Empty }
      else
        some { tc2 with transfer_batch := some batch, stat := .Finish }

/-- Push every address of the list into the bounded list in order,
discarding the fullness reports, mirroring the `for` loop body of
`TransferCache::fill`. -/
def pushAll (l : BoundedList) : List Nat → BoundedList
  | [] => l
  | a :: rest => pushAll (l.push a).1 rest

/-- Embedding of `TransferCache::fill(idx, span)` (transfer_cache.rs):
lift the capacity to `usize::MAX`, then push `addr` for EVERY `addr` in
`(start..=end - size).rev()` — the source iterates at byte granularity,
there is no `step_by(size)` — then `init(start, end)` records the range
and freezes `max_len` at the resulting length, and `num`/`full_num` are
bumped. -/
def TransferCache.fill (tc : TransferCache) (idx : Nat) (span : Span) : Option TransferCache :=
  match tc.free_lists.get? idx, get_size tc.size_class_idx with
  | some fl, some size =>
    let fl1 := fl.set_max_len USIZE_MAX
    let start := span.start
    let stop := start + span.len * K_PAGE_SIZE
    let fl2 := pushAll fl1 ((List.range' start (stop - size + 1 - start)).reverse)
    let fl3 := fl2.init start stop
    some { tc with
      free_lists := tc.free_lists.set idx fl3
      num := tc.num + 1
      full_num := tc.full_num + 1 }
  | _, _ => none

/-! Per-CPU cache (cpu_cache.rs). -/

/-- Embedding of `CpuCacheReg`. -/
structure CpuCacheReg where
  idx : Option Nat
  align : Option Nat
  ptr : Option Nat
deriving DecidableEq, Repr

/-- Embedding of `CpuCache`. -/
structure CpuCache where
  free_lists : List ElasticList
  size : Nat
  max_size : Nat
  stat : CpuCacheStat
  reg : CpuCacheReg
  transfer_batch : Option TransferBatch
  transfer_object : Option Nat
deriving DecidableEq, Repr

/-- Embedding of `CpuCache::new`: 44 fresh elastic lists. -/
def CpuCache.new : CpuCache :=
  ⟨List.replicate K_BASE_NUMBER_CLASSES ElasticList.new, 0, 0, .Ready, ⟨none, none, none⟩, none, none⟩

/-- The per-list body of `CpuCache::init`: init each elastic list with the
class capacity and `K_MAX_OVERRANGES`; the `unwrap` of `get_capacity`
panics (`none`) when a list index has no size class. -/
def initLists : List ElasticList → Nat → Option (List ElasticList)
  | [], _ => some []
  | l :: rest, idx =>
    match get_capacity idx with
    | none => none
    | some cap => (initLists rest (idx + 1)).map fun rs => l.init cap K_MAX_OVERRANGES :: rs

/-- Embedding of `CpuCache::init`: init every elastic list and set
`max_size` to `K_MAX_CPU_CACHE_SIZE`. -/
def CpuCache.init (c : CpuCache) : Option CpuCache :=
  (initLists c.free_lists 0).map fun ls =>
    { c with free_lists := ls, max_size := K_MAX_CPU_CACHE_SIZE }

/-- Embedding of `CpuCache::oversized`. -/
def CpuCache.oversized (c : CpuCache) : Bool :=
  decide (c.size > c.max_size)

/-- Embedding of `CpuCache::overranged(size_class_idx)`; the indexing
panic is `none`. -/
def CpuCache.overrangedAt (c : CpuCache) (size_class_idx : Nat) : Option Bool :=
  (c.free_lists.get? size_class_idx).map ElasticList.overranged

/-- Embedding of `CpuCache::push(size_class_idx, ptr)`: push onto the
elastic list, add the class object size to the running byte total, and
report whether the list is now overranged.  `none` is the panic of the
list indexing or of the `get_size` unwrap. -/
def CpuCache.push (c : CpuCache) (size_class_idx ptr : Nat) : Option (Bool × CpuCache) :=
  match c.free_lists.get? size_class_idx, get_size size_class_idx with
  | some fl, some sz =>
    let fl2 := fl.push ptr
    some (fl2.overranged,
      { c with free_lists := c.free_lists.set size_class_idx fl2, size := c.size + sz })
  | _, _ => none

/-- Embedding of `CpuCache::pop(size_class_idx)`: the outer option is the
indexing/`get_size` panic, the inner option the source's return value.
The byte total shrinks by the class size on success. -/
def CpuCache.pop (c : CpuCache) (size_class_idx : Nat) : Option (Option Nat × CpuCache) :=
  match c.free_lists.get? size_class_idx, get_size size_class_idx with
  | some fl, some sz =>
    match fl.pop with
    | none => some (none, c)
    | some (ptr, fl2) =>
      some (some ptr,
        { c with free_lists := c.free_lists.set size_class_idx fl2, size := c.size - sz })
  | _, _ => none

/-- Embedding of `CpuCache::pop_aligned(size_class_idx, align)`. -/
def CpuCache.pop_aligned (c : CpuCache) (size_class_idx align : Nat) : Option (Option Nat × CpuCache) :=
  match c.free_lists.get? size_class_idx, get_size size_class_idx with
  | some fl, some sz =>
    match fl.pop_aligned align with
    | none => some (none, c)
    | some (ptr, fl2) =>
      some (some ptr,
        { c with free_lists := c.free_lists.set size_class_idx fl2, size := c.size - sz })
  | _, _ => none

/-- Embedding of `CpuCache::alloc_aligned_object`: reads the seeded
`reg.idx`/`reg.align` (unwraps), pops an aligned object, and moves to
`Insufficient` on miss or parks the object and returns to `Ready`. -/
def CpuCache.alloc_aligned_object (c : CpuCache) : Option CpuCache :=
  match c.reg.idx, c.reg.align with
  | some idx, some align =>
    match c.pop_aligned idx align with
    | none => none
    | some (none, c2) => some { c2 with stat := .Insufficient }
    | some (some ptr, c2) => some { c2 with transfer_object := some ptr, stat := .Ready }
  | _, _ => none

/-- Embedding of `CpuCache::dealloc_object`: push the seeded pointer onto
the seeded list, then report `Overranged`, `Oversized` or `Ready`. -/
def CpuCache.dealloc_object (c : CpuCache) : Option CpuCache :=
  match c.reg.idx, c.reg.ptr with
  | some idx, some ptr =>
    (c.push idx ptr).map fun r =>
      if r.1 then { r.2 with stat := .Overranged }
      else if r.2.oversized then { r.2 with stat := .Oversized }
      else { r.2 with stat := .Ready }
  | _, _ => none

/-- The `loop` of `CpuCache::scavenge_batch`, on explicit fuel: pop from
list `idx` into the batch; when the pop fails the elastic list is reset
and the loop stops; when the batch reports full the loop stops without a
reset. -/
def scavLoop (c : CpuCache) (idx : Nat) (batch : TransferBatch) : Nat → Option (CpuCache × TransferBatch)
  | 0 => none
  | fuel + 1 =>
    match c.pop idx with
    | none => none
    | some (none, c2) =>
      match c2.free_lists.get? idx with
      | none => none
      | some fl =>
        some ({ c2 with free_lists := c2.free_lists.set idx fl.reset }, batch)
    | some (some ptr, c2) =>
      match batch.push ptr with
      | none => none
      | some (batch2, full) =>
        if full then some (c2, batch2) else scavLoop c2 idx batch2 fuel

/-- Fuel that always suffices for `scavLoop`: one more than the length of
the drained list. -/
def scavFuel (c : CpuCache) (idx : Nat) : Nat :=
  (match c.free_lists.get? idx with
   | some fl => fl.list.length
   | none => 0) + 1

/-- Embedding of `CpuCache::scavenge_batch(idx)`: the target list is the
argument when given (the `Oversized` path passes the coldest index),
otherwise the seeded `reg.idx`; drain up to `num_to_move` objects into a
fresh batch, park the batch and move to `Scavenge`. -/
def CpuCache.scavenge_batch (c : CpuCache) (idxArg : Option Nat) : Option CpuCache :=
  match (match idxArg with | some i => some i | none => c.reg.idx) with
  | none => none
  | some idx =>
    match get_num_to_move idx with
    | none => none
    | some n =>
      match scavLoop c idx (TransferBatch.new n) (scavFuel c idx) with
      | none => none
      | some (c2, batch) => some { c2 with transfer_batch := some batch, stat := .Scavenge }

/-- Embedding of `CpuCache::scavenged`: once the parked batch has been
taken, re-enter `Overranged` while the seeded list is still overranged,
else `Oversized` while the cache is oversized, else `Ready`. -/
def CpuCache.scavenged (c : CpuCache) : Option CpuCache :=
  match c.reg.idx with
  | none => none
  | some idx =>
    if c.transfer_batch.isNone then
      match c.overrangedAt idx with
      | none => none
      | some ov =>
        if ov then some { c with stat := .Overranged }
        else if c.oversized then some { c with stat := .Oversized }
        else some { c with stat := .Ready }
    else
      some c

/-- The drain loop of `CpuCache::refill_batch`, on explicit fuel. -/
def refillLoop (c : CpuCache) (idx : Nat) (batch : TransferBatch) : Nat → Option (CpuCache × TransferBatch)
  | 0 => none
  | fuel + 1 =>
    match batch.pop with
    | none => some (c, batch)
    | some (ptr, batch2) =>
      match c.push idx ptr with
      | none => none
      | some (_, c2) => refillLoop c2 idx batch2 fuel

/-- Embedding of `CpuCache::refill_batch`: take the inbound batch (a
no-op when there is none), push its contents onto the seeded list, and
re-enter `Alloc`. -/
def CpuCache.refill_batch (c : CpuCache) : Option CpuCache :=
  match c.reg.idx with
  | none => none
  | some idx =>
    match c.transfer_batch with
    | none => some c
    | some batch =>
      (refillLoop { c with transfer_batch := none } idx batch (batch.len + 1)).map
        fun r => { r.1 with stat := .Alloc }

/-- Accumulator loop of `CpuCache::cold` (cpu_cache.rs): walk the elastic
lists with a running `(min_idx, min_color)` pair starting from
`(0, usize::MAX)`; a non-empty list STRICTLY colder than the running
minimum replaces it, so ties keep the first index. -/
def coldAux : List ElasticList → Nat → Nat → Nat → Nat × Nat
  | [], _, mi, mc => (mi, mc)
  | fl :: rest, idx, mi, mc =>
    if !fl.is_empty && decide (fl.color < mc) then
      coldAux rest (idx + 1) idx fl.color
    else
      coldAux rest (idx + 1) mi mc

/-- Embedding of `CpuCache::cold`: index of the non-empty elastic list
with the smallest `color`, or `none` when every list is empty. -/
def CpuCache.cold (c : CpuCache) : Option Nat :=
  let r := coldAux c.free_lists 0 0 USIZE_MAX
  if r.2 < USIZE_MAX then some r.1 else none

/-- Embedding of the `Ready` branch of `CpuCache::stat_handler`: adopt
the seed when one is supplied. -/
def CpuCache.seed (c : CpuCache) (stat : Option CpuCacheStat) : CpuCache :=
  match stat with
  | some s => { c with stat := s }
  | none => c

/-- Flow mode computed from the post-step status of the per-CPU cache
(second `match` of `CpuCache::stat_handler`). -/
def cpuFlowOf : CpuCacheStat → FlowMod
  | .Ready => .Forward
  | .Alloc => .Circle
  | .Dealloc => .Circle
  | .Overranged => .Circle
  | .Oversized => .Circle
  | .Insufficient => .Backward
  | .Scavenge => .Backward

/-- Embedding of `CpuCache::stat_handler(stat)`: dispatch one step on the
current status — the `Oversized` arm targets `self.cold().unwrap()` —
then report the flow mode of the new status. -/
def CpuCache.stat_handler (c : CpuCache) (stat : Option CpuCacheStat) : Option (CpuCache × FlowMod) :=
  (match c.stat with
   | .Alloc => c.alloc_aligned_object
   | .Dealloc => c.dealloc_object
   | .Insufficient => c.refill_batch
   | .Overranged => c.scavenge_batch none
   | .Oversized =>
     match c.cold with
     | none => none
     | some k => c.scavenge_batch (some k)
   | .Ready => some (c.seed stat)
   | .Scavenge => c.scavenged).map
    fun c2 => (c2, cpuFlowOf c2.stat)

/-! Central free lists (central_free_list.rs). -/

/-- States of a central free list (status.rs, `CentralFreeListStat`). -/
inductive CentralFreeListStat where
  | Ready
  | Alloc
  | Dealloc
  | Empty
  | Overranged
  | Scavenge
deriving DecidableEq, Repr

/-- States of the central-free-lists metadata tier (status.rs). -/
inductive CentralFreeListMetaStat where
  | Ready
  | Alloc
  | Empty
deriving DecidableEq, Repr

/-- Embedding of `CentralFreeList`. -/
structure CentralFreeList where
  free_list : ElasticList
  span_idx : Nat
  stat : CentralFreeListStat
  transfer_batch : Option TransferBatch
  transfer_span : Option Span
deriving DecidableEq, Repr

/-- Embedding of `CentralFreeList::new`. -/
def CentralFreeList.new : CentralFreeList :=
  ⟨ElasticList.new, 0, .Ready, none, none⟩

/-- Embedding of `CentralFreeList::init(span_idx, max_pages)`: the
per-element closure built (but never run, see `CentralFreeLists.init`) by
the container init. -/
def CentralFreeList.initOne (c : CentralFreeList) (span_idx max_pages : Nat) : CentralFreeList :=
  { c with
    span_idx := span_idx
    free_list := c.free_list.init (max_pages / (span_idx + 1)) K_MAX_OVERRANGES }

/-- Embedding of `CentralFreeLists`: the raw `*mut BoundedList` of
`transfer_list` is modelled by the address alone. -/
structure CentralFreeLists where
  free_lists : List CentralFreeList
  free_bounded_lists : ElasticList
  stat : CentralFreeListMetaStat
  transfer_span : Option Span
  transfer_list : Option Nat
deriving DecidableEq, Repr

/-- Embedding of `CentralFreeLists::new`: seven fresh span lists. -/
def CentralFreeLists.new : CentralFreeLists :=
  ⟨List.replicate K_BASE_NUMBER_SPAN CentralFreeList.new, ElasticList.new, .Ready, none, none⟩

/-- Embedding of `CentralFreeLists::init(max_size)` (central_free_list.rs
lines 162-168): the source builds
`self.free_lists.iter_mut().enumerate().map(closure)` and binds the
resulting iterator to `_` without ever consuming it; Rust iterator `map`
is lazy, so `CentralFreeList::init` never runs and the state is returned
unchanged. -/
def CentralFreeLists.init (c : CentralFreeLists) (_max_size : Nat) : CentralFreeLists :=
  c

/-! Transfer cache container (transfer_cache.rs). -/

/-- Embedding of `TransferCaches::init` (transfer_cache.rs lines
342-348): as in `CentralFreeLists.init`, the source binds the lazy
`iter_mut().enumerate().map(...)` iterator to `_` without consuming it,
so `TransferCache::init` never runs and the caches are returned
unchanged. -/
def TransferCaches.init (cs : List TransferCache) : List TransferCache :=
  cs

/-! Page heap (page_heap.rs). -/

/-- States of the page heap (status.rs, `PageHeapStat`). -/
inductive PageHeapStat where
  | Ready
  | Alloc
  | Dealloc
  | Insufficient
  | Uncovered
deriving DecidableEq, Repr

/-- Embedding of `PageHeapReg`. -/
structure PageHeapReg where
  ptr : Option Nat
  pages : Option Nat
deriving DecidableEq, Repr

/-- Embedding of `PageHeap`: `primary_heap` is the array of
`(assigned, page_addr)` cells. -/
structure PageHeap where
  primary_heap : List (Bool × Nat)
  stat : PageHeapStat
  reg : PageHeapReg
  transfer_span : Option Span
deriving DecidableEq, Repr

/-- Embedding of `PageHeap::new`. -/
def PageHeap.new : PageHeap :=
  ⟨List.replicate K_PRIMARY_HEAP_LEN (false, 0), .Ready, ⟨none, none⟩, none⟩

/-- The cell-assignment loop of `PageHeap::init`: walk the array writing
`(false, base + offset)` with the offset advancing one page per cell. -/
def assignAddrs (base : Nat) : Nat → List (Bool × Nat) → List (Bool × Nat)
  | _, [] => []
  | i, _ :: rest => (false, base + i * K_PAGE_SIZE) :: assignAddrs base (i + 1) rest

/-- Embedding of `PageHeap::init(base)`. -/
def PageHeap.init (p : PageHeap) (base : Nat) : PageHeap :=
  { p with primary_heap := assignAddrs base 0 p.primary_heap }

/-- The unassignment loop of `PageHeap::dealloc_pages`: clear the
`assigned` flag of every cell with index in `[start, start + pages)`,
keeping each cell's `page_addr`. -/
def markRange (start pages : Nat) : Nat → List (Bool × Nat) → List (Bool × Nat)
  | _, [] => []
  | i, cell :: rest =>
    (if start ≤ i ∧ i < start + pages then (false, cell.2) else cell) ::
      markRange start pages (i + 1) rest

/-- Embedding of `PageHeap::dealloc_pages` (page_heap.rs lines 126-146):
reads the seeded `reg.ptr`/`reg.pages` (unwraps), computes the primary
heap range from the first and last cells, and either clears the assigned
flags of the covered cells and returns to `Ready`, or parks the span in
`transfer_span` and moves to `Uncovered`.  The slice
`primary_heap[start..start + pages]` panics when it overruns the array;
that panic is the inner `none`. -/
def PageHeap.dealloc_pages (p : PageHeap) : Option PageHeap :=
  match p.reg.ptr, p.reg.pages with
  | some addr, some pages =>
    match p.primary_heap.head?, p.primary_heap.getLast? with
    | some first, some last =>
      let base := first.2
      let bound := last.2 + K_PAGE_SIZE
      let span_base := addr
      let span_bound := addr + (pages <<< K_PAGE_SHIFT)
      if span_base ≥ base ∧ span_bound ≤ bound then
        let start := (addr - base) >>> K_PAGE_SHIFT
        if start + pages ≤ p.primary_heap.length then
          some { p with primary_heap := markRange start pages 0 p.primary_heap, stat := .Ready }
        else
          none
      else
        some { p with transfer_span := some ⟨pages, addr⟩, stat := .Uncovered }
    | _, _ => none
  | _, _ => none

/-! Top-level driver (tcmalloc/mod.rs). -/

/-- States of the driver (status.rs `MetaStat` plus the `Finish` state the
driver draft in tcmalloc/mod.rs dispatches on; the divergent drafts
disagree on payloads, which live in `MetaReg` here as in status.rs). -/
inductive MetaStat where
  | Ready
  | Alloc
  | Dealloc
  | Finish
  | Insufficient
  | LargeSize
  | Uncovered
deriving DecidableEq, Repr

/-- Embedding of `MetaReg`. -/
structure MetaReg where
  layout : Option Layout
  ptr : Option Nat
  pages : Option Nat
deriving DecidableEq, Repr

/-- Embedding of `Tcmalloc<C>`: the per-CPU arrays are lists of length
`C`. -/
structure Tcmalloc where
  cpu_caches : List CpuCache
  transfer_caches : List TransferCache
  central_free_lists : CentralFreeLists
  page_heap : PageHeap
  stat : List MetaStat
  reg : List MetaReg
  transfer_span : List (Option Span)
  transfer_object : List (Option Nat)
deriving DecidableEq, Repr

/-- Embedding of `Tcmalloc::new` for `C = cpus` CPUs. -/
def Tcmalloc.new (cpus : Nat) : Tcmalloc :=
  ⟨List.replicate cpus CpuCache.new,
   List.replicate K_BASE_NUMBER_CLASSES TransferCache.new,
   CentralFreeLists.new,
   PageHeap.new,
   List.replicate cpus .Ready,
   List.replicate cpus ⟨none, none, none⟩,
   List.replicate cpus none,
   List.replicate cpus none⟩

/-- The per-cache loop of `CpuCaches::init`: init each cache in turn,
propagating the capacity-lookup panic. -/
def initCpuList : List CpuCache → Option (List CpuCache)
  | [] => some []
  | c :: rest =>
    match c.init with
    | none => none
    | some c2 => (initCpuList rest).map fun rs => c2 :: rs

/-- Embedding of `Tcmalloc::init(max_len, base)`: init every CPU cache
(`CpuCaches::init`), run the lazy no-op inits of the transfer caches and
central free lists, and init the page heap. -/
def Tcmalloc.init (t : Tcmalloc) (max_len base : Nat) : Option Tcmalloc :=
  (initCpuList t.cpu_caches).map fun ccs =>
    { t with
      cpu_caches := ccs
      transfer_caches := TransferCaches.init t.transfer_caches
      central_free_lists := t.central_free_lists.init max_len
      page_heap := t.page_heap.init base }

/-- Embedding of `Tcmalloc::deallocate(cpu, ptr, layout)` (tcmalloc/mod.rs
line 307): the body of the source function is empty — `fn deallocate(&mut
self, cpu: usize, ptr: *mut u8, layout: Layout) {}` — so the allocator
state is returned unchanged and nothing is routed anywhere. -/
def Tcmalloc.deallocate (t : Tcmalloc) (_cpu _ptr : Nat) (_layout : Layout) : Tcmalloc :=
  t

/-! Specification-side comparison definitions.  The next definitions are
NOT translations of the source; they restate, in direct recursive form,
the behavior claimed or amended for it, and the theorems below compare
them with the source embeddings. -/

/-- Index of the last non-empty bounded list, in iteration order. -/
def lastNonEmptyIdx : List BoundedList → Option Nat
  | [] => none
  | fl :: rest =>
    match lastNonEmptyIdx rest with
    | some j => some (j + 1)
    | none => if !fl.is_empty then some 0 else none

/-- Direct description of the (amended) transfer-cache refill loop:
repeatedly pop from the last non-empty bounded list, accumulating the
popped pointers, until `n` pointers have been collected or every list is
empty. -/
def specRefill : Nat → List BoundedList → List Nat → Nat → Option (List BoundedList × List Nat)
  | 0, _, _, _ => none
  | fuel + 1, ls, acc, n =>
    match lastNonEmptyIdx ls with
    | none => some (ls, acc)
    | some k =>
      match ls.get? k with
      | none => none
      | some fl =>
        match fl.pop with
        | none => some (ls, acc)
        | some (pf, fl2) =>
          if acc.length + 1 ≥ n then some (ls.set k fl2, acc ++ [pf.1])
          else specRefill fuel (ls.set k fl2) (acc ++ [pf.1]) n

/-- The complete `Overranged`-driven shrink of one per-CPU free list, as
composed by the state machine: while the cache reports `Overranged`,
`CpuCache::stat_handler` runs `scavenge_batch(None)` and parks a batch;
the driver hands the batch to the transfer cache (modelled by clearing
`transfer_batch`); `scavenged` then re-enters `Overranged` while the
seeded list is still overranged.  The loop runs on explicit fuel. -/
def shrinkLoop (c : CpuCache) : Nat → Option CpuCache
  | 0 => none
  | fuel + 1 =>
    match c.stat with
    | .Overranged =>
      match c.scavenge_batch none with
      | none => none
      | some c1 =>
        match CpuCache.scavenged { c1 with transfer_batch := none } with
        | none => none
        | some c2 => shrinkLoop c2 fuel
    | _ => some c

/-! Helper lemmas. -/

/-- Unfolding lemma: pushing a whole address list onto a bounded list
conses its reverse and adds its length, touching nothing else. -/
theorem pushAll_eq : ∀ (xs : List Nat) (l : BoundedList),
    pushAll l xs = { l with list := xs.reverse ++ l.list, len := l.len + xs.length } := by
  intro xs
  induction xs with
  | nil => intro l; cases l; simp [pushAll]
  | cons a rest ih =>
    intro l
    cases l
    simp only [pushAll, BoundedList.push, ih]
    simp [List.append_assoc]
    omega

/-- The first-match scan of the size-class table: a hit at `k` means the
entry at offset `k - idx` covers the size and every earlier entry is too
small. -/
theorem matchFrom_spec : ∀ (cls : List SizeClassInfo) (size idx k : Nat),
    matchFrom cls size idx = some k →
    idx ≤ k ∧ ∃ info, cls[k - idx]? = some info ∧ size ≤ info.size ∧
      ∀ j infoj, j < k - idx → cls[j]? = some infoj → infoj.size < size := by
  intro cls
  induction cls with
  | nil => intro size idx k h; simp [matchFrom] at h
  | cons info rest ih =>
    intro size idx k h
    simp only [matchFrom] at h
    by_cases hle : size ≤ info.size
    · simp [hle] at h
      subst h
      refine ⟨Nat.le_refl _, info, ?_, hle, ?_⟩
      · simp
      · intro j infoj hj
        omega
    · simp [hle] at h
      obtain ⟨hik, info2, hget, hsz, hall⟩ := ih size (idx + 1) k h
      refine ⟨by omega, info2, ?_, hsz, ?_⟩
      · have hk : k - idx = (k - (idx + 1)) + 1 := by omega
        rw [hk]
        simpa using hget
      · intro j infoj hj hgj
        match j, hgj with
        | 0, hgj =>
          simp at hgj
          subst hgj
          omega
        | j + 1, hgj =>
          simp at hgj
          exact hall j infoj (by omega) hgj

/-- A removed aligned node is indeed aligned. -/
theorem removeFirstAligned_mod : ∀ (align : Nat) (xs : List Nat) (x : Nat) (rest : List Nat),
    removeFirstAligned align xs = some (x, rest) → x % align = 0 := by
  intro align xs
  induction xs with
  | nil => intro x rest h; simp [removeFirstAligned] at h
  | cons a tail ih =>
    intro x rest h
    simp only [removeFirstAligned] at h
    by_cases ha : (a % align == 0) = true
    · rw [if_pos ha] at h
      injection h with h2
      injection h2 with h3 h4
      subst h3
      simpa using ha
    · rw [if_neg ha] at h
      match hrem : removeFirstAligned align tail with
      | none => rw [hrem] at h; simp at h
      | some r =>
        rw [hrem] at h
        injection h with h2
        injection h2 with h3 h4
        subst h3
        exact ih r.1 r.2 (by rw [hrem])

/-- Initializing a replicated CPU-cache list initializes each cache. -/
theorem initCpuList_replicate : ∀ (n : Nat) (c c2 : CpuCache),
    c.init = some c2 →
    initCpuList (List.replicate n c) = some (List.replicate n c2) := by
  intro n c c2 h
  induction n with
  | zero => rfl
  | succ m ih => simp [List.replicate_succ, initCpuList, h, ih]

/-- The page-address assignment loop on a replicated array produces the
arithmetic address sequence. -/
theorem assignAddrs_replicate : ∀ (n i b : Nat) (cell : Bool × Nat),
    assignAddrs b i (List.replicate n cell) =
      (List.range' i n).map fun j => (false, b + j * K_PAGE_SIZE) := by
  intro n
  induction n with
  | zero => intro i b cell; rfl
  | succ m ih =>
    intro i b cell
    simp only [List.replicate_succ, assignAddrs, List.range'_succ, List.map_cons]
    rw [ih]

/-! Claim C2. -/

/-- C2: the claim states that `Tcmalloc::deallocate` routes large frees
to the page heap and otherwise seeds the per-CPU cache with
`Dealloc(idx, ptr)`, returning memory to the allocator.  The source body
of `Tcmalloc::deallocate` is empty, so the embedded function returns the
allocator state unchanged for every input: in particular no elastic list
receives the pointer, the per-CPU byte total `size` never grows, and no
status is produced. -/
theorem C2_deallocate_is_noop :
    ∀ (t : Tcmalloc) (cpu ptr : Nat) (layout : Layout),
      t.deallocate cpu ptr layout = t ∧
      (t.deallocate cpu ptr layout).cpu_caches = t.cpu_caches ∧
      (t.deallocate cpu ptr layout).page_heap = t.page_heap := by
  intro t cpu ptr layout
  exact ⟨rfl, rfl, rfl⟩

/-! Claim C3. -/

/-- C3: after `Tcmalloc::init(max_len, base)` the transfer caches and
central free lists are exactly as freshly constructed — every
`size_class_idx` is 0, every `span_idx` is 0, every central elastic list
still has `max_len = 0` — because the `iter_mut().map(...)` iterators
built by their container inits are never consumed; only the CPU caches
(whose `max_size` becomes `K_MAX_CPU_CACHE_SIZE`) and the page heap
(whose cells become `(false, base + i·K_PAGE_SIZE)`) are initialized. -/
theorem C3_lazy_init :
    ∀ (m b : Nat),
      ∃ t2, (Tcmalloc.new 16).init m b = some t2 ∧
        t2.transfer_caches = List.replicate K_BASE_NUMBER_CLASSES TransferCache.new ∧
        (t2.transfer_caches.all fun c => c.size_class_idx == 0) = true ∧
        t2.central_free_lists.free_lists = List.replicate K_BASE_NUMBER_SPAN CentralFreeList.new ∧
        (t2.central_free_lists.free_lists.all fun c =>
          c.span_idx == 0 && c.free_list.max_len == 0) = true ∧
        (∃ cc, CpuCache.init CpuCache.new = some cc ∧
          t2.cpu_caches = List.replicate 16 cc ∧ cc.max_size = K_MAX_CPU_CACHE_SIZE) ∧
        t2.page_heap.primary_heap =
          (List.range K_PRIMARY_HEAP_LEN).map fun i => (false, b + i * K_PAGE_SIZE) := by
  intro m b
  obtain ⟨cc, hcc⟩ : ∃ cc, CpuCache.init CpuCache.new = some cc := ⟨_, rfl⟩
  refine ⟨{ Tcmalloc.new 16 with
      cpu_caches := List.replicate 16 cc
      transfer_caches := TransferCaches.init (Tcmalloc.new 16).transfer_caches
      central_free_lists := (Tcmalloc.new 16).central_free_lists.init m
      page_heap := (Tcmalloc.new 16).page_heap.init b },
    ?_, rfl,
    by
      show ((List.replicate K_BASE_NUMBER_CLASSES TransferCache.new).all
        fun c => c.size_class_idx == 0) = true
      decide,
    rfl,
    by
      show ((List.replicate K_BASE_NUMBER_SPAN CentralFreeList.new).all
        fun c => c.span_idx == 0 && c.free_list.max_len == 0) = true
      decide,
    ⟨cc, hcc, rfl, ?_⟩, ?_⟩
  · show (initCpuList (Tcmalloc.new 16).cpu_caches).map _ = some _
    rw [show (Tcmalloc.new 16).cpu_caches = List.replicate 16 CpuCache.new from rfl,
      initCpuList_replicate 16 CpuCache.new cc hcc]
    rfl
  · have h3 := hcc
    simp only [CpuCache.init] at h3
    obtain ⟨ls, _, h2⟩ := Option.map_eq_some'.mp h3
    subst h2
    rfl
  · show assignAddrs b 0 (List.replicate K_PRIMARY_HEAP_LEN (false, 0)) = _
    rw [assignAddrs_replicate, List.range_eq_range']

/-! Claim C4. -/

/-- C4 counterexample: for the layout `(size 8, align 64)` the selector
`match_size_class` picks class 0 of size 8, which is smaller than the
requested alignment 64, and the allocation nevertheless succeeds — a
per-CPU cache holding the 64-aligned object 4096 in class 0 serves it —
so a successful size-class `alloc` does NOT guarantee
`size_classes[k].size >= layout.align()`. -/
theorem C4_counterexample :
    match_size_class ⟨8, 64⟩ = some 0 ∧
    get_size 0 = some 8 ∧
    (8 : Nat) < 64 ∧
    ((CpuCache.alloc_aligned_object
        { CpuCache.new with
          stat := .Alloc
          reg := ⟨some 0, some 64, none⟩
          size := 100
          free_lists :=
            (⟨[4096], 1, 5811, 0, 0, 4⟩ : ElasticList) ::
              List.replicate 43 ElasticList.new }).map
      fun c => (c.transfer_object, c.stat)) = some (some 4096, .Ready) := by
  exact ⟨rfl, rfl, by decide, by decide⟩

/-- C4 amended: a successful size-class selection for layout `l` returns
the SMALLEST index `k` with `size_classes[k].size >= l.size()`; the bound
`size_classes[k].size >= l.align()` additionally holds whenever
`l.align() <= l.size()`, but is not guaranteed for over-aligned layouts,
which the per-CPU cache instead serves by popping a pointer that is
itself aligned (`pop_aligned`). -/
theorem C4_amended :
    (∀ (layout : Layout) (k : Nat), match_size_class layout = some k →
      ∃ info, SIZE_CLASSES[k]? = some info ∧ get_size k = some info.size ∧
        layout.size ≤ info.size ∧
        (∀ j infoj, j < k → SIZE_CLASSES[j]? = some infoj → infoj.size < layout.size) ∧
        (layout.align ≤ layout.size → layout.align ≤ info.size)) ∧
    (∀ (c : CpuCache) (idx align ptr : Nat) (c2 : CpuCache),
      c.pop_aligned idx align = some (some ptr, c2) → ptr % align = 0) := by
  constructor
  · intro layout k h
    obtain ⟨-, info, hget, hsz, hall⟩ := matchFrom_spec SIZE_CLASSES layout.size 0 k h
    simp only [Nat.sub_zero] at hget hall
    have hk44 : k < K_BASE_NUMBER_CLASSES := by
      by_contra hk
      have hlen : SIZE_CLASSES.length = 44 := rfl
      have h44 : K_BASE_NUMBER_CLASSES = 44 := rfl
      rw [List.getElem?_eq_none (by omega)] at hget
      exact Option.noConfusion hget
    refine ⟨info, hget, ?_, hsz, hall, fun hal => Nat.le_trans hal hsz⟩
    simp [get_size, hk44, List.get?_eq_getElem?, hget]
  · intro c idx align ptr c2 h
    unfold CpuCache.pop_aligned at h
    split at h
    next fl sz hfl hsz =>
      split at h
      next hpop => exact absurd h (by simp)
      next p fl2 hpop =>
        obtain ⟨r, hrem, hr⟩ := Option.map_eq_some'.mp hpop
        injection h with h2
        injection h2 with h3 h4
        injection hr with hr1 hr2
        have : p = ptr := Option.some.inj h3
        subst this
        subst hr1
        exact removeFirstAligned_mod align fl.list r.1 r.2 hrem
    next => exact absurd h (by simp)

/-- C4 amended, witness: the theorem applied at the layout `(8, 8)`,
whose selected class is 0. -/
theorem C4_amended_witness :
    match_size_class ⟨8, 8⟩ = some 0 ∧
    ∃ info, SIZE_CLASSES[0]? = some info ∧ get_size 0 = some info.size ∧
      (8 : Nat) ≤ info.size ∧
      (∀ j infoj, j < 0 → SIZE_CLASSES[j]? = some infoj → infoj.size < 8) ∧
      ((8 : Nat) ≤ 8 → (8 : Nat) ≤ info.size) :=
  ⟨by decide, C4_amended.1 ⟨8, 8⟩ 0 (by decide)⟩

/-! Claim C9. -/

/-- C9 counterexample: a successful `ElasticList::pop` that does NOT
increment `color` — popping the one-element elastic list with
`color = 3` returns an element and leaves `color` at 3, not 4. -/
theorem C9_counterexample :
    (ElasticList.pop ⟨[7], 1, 5, 3, 0, 4⟩).map (fun r => r.2.color) = some 3 ∧
    (3 : Nat) ≠ 3 + 1 := by
  exact ⟨rfl, by decide⟩

/-- C9 amended: `color` counts pops on bounded lists — every successful
`BoundedList::pop` increments it by exactly one — but on elastic lists
only the allocation-path `pop_aligned` increments it; the plain
`ElasticList::pop` (used by the scavenge paths) leaves `color`
unchanged.  Pushes never change `color`, and the only other change is a
reset to 0. -/
theorem C9_amended :
    (∀ (b : BoundedList) (pf : Nat × Bool) (b2 : BoundedList),
      b.pop = some (pf, b2) → b2.color = b.color + 1) ∧
    (∀ (b : BoundedList) (item : Nat), ((b.push item).1).color = b.color) ∧
    (∀ (b : BoundedList), b.reset.color = 0) ∧
    (∀ (l : ElasticList) (x : Nat) (l2 : ElasticList),
      l.pop = some (x, l2) → l2.color = l.color) ∧
    (∀ (l : ElasticList) (a x : Nat) (l2 : ElasticList),
      l.pop_aligned a = some (x, l2) → l2.color = l.color + 1) ∧
    (∀ (l : ElasticList) (item : Nat), (l.push item).color = l.color) ∧
    (∀ (l : ElasticList), l.reset.color = 0) := by
  refine ⟨?_, fun b item => rfl, fun b => rfl, ?_, ?_, fun l item => rfl, fun l => rfl⟩
  · intro b pf b2 h
    unfold BoundedList.pop at h
    match hb : b.list with
    | [] => rw [hb] at h; exact Option.noConfusion h
    | x :: rest =>
      rw [hb] at h
      injection h with h2
      injection h2 with h3 h4
      rw [← h4]
  · intro l x l2 h
    unfold ElasticList.pop at h
    match hl : l.list with
    | [] => rw [hl] at h; exact Option.noConfusion h
    | y :: rest =>
      rw [hl] at h
      injection h with h2
      injection h2 with h3 h4
      rw [← h4]
  · intro l a x l2 h
    unfold ElasticList.pop_aligned at h
    obtain ⟨r, hrem, hr⟩ := Option.map_eq_some'.mp h
    injection hr with hr1 hr2
    rw [← hr2]

/-- C9 amended, witness: the theorem applied at concrete one-element
lists. -/
theorem C9_amended_witness :
    (BoundedList.pop ⟨[5], 1, 1, 6, 0, 8⟩ = some ((5, true), ⟨[], 0, 1, 7, 0, 8⟩) ∧
      (⟨[], 0, 1, 7, 0, 8⟩ : BoundedList).color = 6 + 1) ∧
    (ElasticList.pop ⟨[7], 1, 5, 3, 0, 4⟩ = some (7, ⟨[], 0, 5, 3, 0, 4⟩) ∧
      (⟨[], 0, 5, 3, 0, 4⟩ : ElasticList).color = 3) ∧
    (ElasticList.pop_aligned ⟨[8], 1, 5, 3, 0, 4⟩ 4 = some (8, ⟨[], 0, 5, 4, 0, 4⟩) ∧
      (⟨[], 0, 5, 4, 0, 4⟩ : ElasticList).color = 3 + 1) :=
  ⟨⟨rfl, C9_amended.1 ⟨[5], 1, 1, 6, 0, 8⟩ (5, true) ⟨[], 0, 1, 7, 0, 8⟩ rfl⟩,
   ⟨rfl, C9_amended.2.2.2.1 ⟨[7], 1, 5, 3, 0, 4⟩ 7 ⟨[], 0, 5, 3, 0, 4⟩ rfl⟩,
   ⟨rfl, C9_amended.2.2.2.2.1 ⟨[8], 1, 5, 3, 0, 4⟩ 4 8 ⟨[], 0, 5, 4, 0, 4⟩ rfl⟩⟩

/-! Claim C1. -/

/-- C1: evaluation of `TransferCache::fill` on a 1-page span of size
class 0 (object size 8) based at 1048576.  The code pushes 4089 object
pointers at ONE-byte stride — the list is exactly the address range
`[1048576, 1048576 + 4089)` — and leaves `max_len = 4089`, whereas the
claim requires floor((1·4096)/8) = 512 pointers spaced 8 bytes apart and
`max_len = (bound − base − 1)/8 = 511`. -/
theorem C1_fill_byte_stride :
    ∃ tc2 fl,
      TransferCache.fill
        { TransferCache.new with free_lists := [BoundedList.new], size_class_idx := 0 }
        0 ⟨1, 1048576⟩ = some tc2 ∧
      tc2.free_lists[0]? = some fl ∧
      fl.list = List.range' 1048576 4089 ∧
      fl.len = 4089 ∧ fl.max_len = 4089 ∧
      fl.base = 1048576 ∧ fl.bound = 1048576 + K_PAGE_SIZE ∧
      fl.len ≠ 1 * K_PAGE_SIZE / 8 ∧
      fl.max_len ≠ (fl.bound - fl.base - 1) / 8 ∧
      fl.list[1]? = some (1048576 + 1) ∧ 1048576 + 1 ≠ 1048576 + 8 := by
  have hb : (pushAll (BoundedList.new.set_max_len USIZE_MAX)
      ((List.range' 1048576 4089).reverse)).init 1048576 (1048576 + K_PAGE_SIZE) =
      (⟨List.range' 1048576 4089, 4089, 4089, 0, 1048576, 1048576 + K_PAGE_SIZE⟩ : BoundedList) := by
    rw [pushAll_eq]
    simp [BoundedList.init, BoundedList.set_max_len, BoundedList.new]
  have h1 : TransferCache.fill
      { TransferCache.new with free_lists := [BoundedList.new], size_class_idx := 0 }
      0 ⟨1, 1048576⟩ =
      some { TransferCache.new with
        free_lists := [(pushAll (BoundedList.new.set_max_len USIZE_MAX)
          ((List.range' 1048576 4089).reverse)).init 1048576 (1048576 + K_PAGE_SIZE)]
        size_class_idx := 0
        num := 1
        full_num := 1 } := rfl
  rw [hb] at h1
  refine ⟨_, _, h1, rfl, rfl, rfl, rfl, rfl, rfl, by decide, by decide, ?_, by decide⟩
  show (List.range' 1048576 4089)[1]? = some (1048576 + 1)
  rw [List.getElem?_range' 1048576 1 (by decide)]

/-! Helper lemmas about the size-class table and the scavenge loop. -/

/-- Every valid class index has an object size. -/
theorem get_size_isSome : ∀ idx, idx < K_BASE_NUMBER_CLASSES → (get_size idx).isSome = true := by
  decide

/-- Every valid class index has a batch size between 1 and 32. -/
theorem num_to_move_bounds : ∀ idx, idx < K_BASE_NUMBER_CLASSES →
    (get_num_to_move idx).isSome = true ∧
    1 ≤ (get_num_to_move idx).getD 0 ∧ (get_num_to_move idx).getD 0 ≤ 32 := by
  decide

/-- Characterization of the scavenge loop `scavLoop`: with enough fuel and
a well-formed batch it never panics; the drained elastic list either
empties out and is reset (`overrange = 0`) when the whole list fits the
batch, or loses exactly the batch capacity with `overrange` untouched. -/
theorem scavLoop_char : ∀ (fuel : Nat) (c : CpuCache) (idx : Nat) (fl : ElasticList)
    (batch : TransferBatch),
    c.free_lists.get? idx = some fl →
    idx < K_BASE_NUMBER_CLASSES →
    batch.padding.length = 32 →
    batch.max_len ≤ 32 →
    batch.len < batch.max_len →
    fl.list.length + 1 ≤ fuel →
    ∃ c2 batch2 fl2,
      scavLoop c idx batch fuel = some (c2, batch2) ∧
      c2.free_lists.get? idx = some fl2 ∧
      c2.free_lists.length = c.free_lists.length ∧
      c2.reg = c.reg ∧
      c2.stat = c.stat ∧
      c2.transfer_batch = c.transfer_batch ∧
      fl2.max_overrange = fl.max_overrange ∧
      ((fl.list.length + batch.len < batch.max_len →
          fl2.overrange = 0 ∧ fl2.list = []) ∧
       (batch.max_len ≤ fl.list.length + batch.len →
          fl2.overrange = fl.overrange ∧
          fl2.list.length + (batch.max_len - batch.len) = fl.list.length)) := by
  intro fuel
  induction fuel with
  | zero => intro c idx fl batch hfl hidx hpad hml hlt hfuel; omega
  | succ n ih =>
    intro c idx fl batch hfl hidx hpad hml hlt hfuel
    have hsz := get_size_isSome idx hidx
    obtain ⟨sz, hsz⟩ := Option.isSome_iff_exists.mp hsz
    have hidxlen : idx < c.free_lists.length := by
      by_contra hk
      rw [List.get?_eq_getElem?, List.getElem?_eq_none (by omega)] at hfl
      exact Option.noConfusion hfl
    have hflg : c.free_lists[idx]? = some fl := by
      rw [← List.get?_eq_getElem?]
      exact hfl
    match hlist : fl.list with
    | [] =>
      have hpop0 : c.pop idx = some (none, c) := by
        simp [CpuCache.pop, hflg, hsz, ElasticList.pop, hlist]
      refine ⟨{ c with free_lists := c.free_lists.set idx fl.reset }, batch, fl.reset,
        ?_, ?_, by simp, rfl, rfl, rfl, rfl,
        ⟨fun _ => ⟨rfl, hlist⟩, fun habs => ?_⟩⟩
      · show scavLoop c idx batch (n + 1) = _
        simp [scavLoop, hpop0, hflg]
      · rw [List.get?_eq_getElem?, List.getElem?_set_self hidxlen]
      · simp at habs
        omega
    | x :: rest =>
      have hpop : c.pop idx = some (some x,
          { c with
            free_lists := c.free_lists.set idx { fl with list := rest, len := fl.len - 1 }
            size := c.size - sz }) := by
        simp [CpuCache.pop, hflg, hsz, ElasticList.pop, hlist]
      have hpush : batch.push x = some
          (⟨batch.padding.set batch.len x, batch.len + 1, batch.max_len⟩,
            decide (batch.len + 1 ≥ batch.max_len)) := by
        unfold TransferBatch.push
        rw [if_pos (by omega)]
      by_cases hfull : batch.len + 1 ≥ batch.max_len
      · refine ⟨{ c with
            free_lists := c.free_lists.set idx { fl with list := rest, len := fl.len - 1 }
            size := c.size - sz },
          ⟨batch.padding.set batch.len x, batch.len + 1, batch.max_len⟩,
          { fl with list := rest, len := fl.len - 1 }, ?_, ?_, by simp, rfl, rfl,
          rfl, rfl, ⟨fun habs => ?_, fun _ => ⟨rfl, ?_⟩⟩⟩
        · show scavLoop c idx batch (n + 1) = _
          simp only [scavLoop, hpop, hpush]
          rw [if_pos (by simpa using hfull)]
        · rw [List.get?_eq_getElem?, List.getElem?_set_self (by simpa using hidxlen)]
        · simp at habs
          omega
        · simp
          omega
      · have hrec := ih
          { c with
            free_lists := c.free_lists.set idx { fl with list := rest, len := fl.len - 1 }
            size := c.size - sz }
          idx { fl with list := rest, len := fl.len - 1 }
          ⟨batch.padding.set batch.len x, batch.len + 1, batch.max_len⟩
          (by rw [List.get?_eq_getElem?]
              exact List.getElem?_set_self (by simpa using hidxlen))
          hidx (by simpa using hpad) hml (by simp; omega)
          (by simp only []
              rw [hlist] at hfuel
              simp at hfuel
              omega)
        obtain ⟨c2, batch2, fl2, hloop, hget2, hlen2, hreg2, hstat2, htb2, hmo2, hA, hB⟩ := hrec
        refine ⟨c2, batch2, fl2, ?_, hget2, by simpa using hlen2, hreg2, hstat2, htb2, hmo2,
          ⟨fun hcond => hA ?_, fun hcond => ?_⟩⟩
        · show scavLoop c idx batch (n + 1) = _
          simp only [scavLoop, hpop, hpush]
          rw [if_neg (by simpa using hfull)]
          exact hloop
        · show rest.length + (batch.len + 1) < batch.max_len
          simp at hcond
          omega
        · have hcond2 : batch.max_len ≤ rest.length + (batch.len + 1) := by
            simp at hcond
            omega
          obtain ⟨hov, hlen3⟩ := hB hcond2
          refine ⟨hov, ?_⟩
          simp only [List.length_cons]
          simp only [List.length_cons] at hlen3
          omega

/-! Claim C10. -/

/-- C10: `TransferBatch::push` stores at index `len` before any capacity
check, so the embedded push succeeds exactly when `len` is below the
32-slot array length (a push at `len = 32` is the out-of-bounds panic);
on success the slot is written and fullness is reported only after the
increment.  The cited caller (`CpuCache::scavenge_batch`) preserves the
precondition because its loop stops at the first `true` report: starting
from a fresh batch, the whole scavenge never panics. -/
theorem C10_push_bounds :
    (∀ (b : TransferBatch) (ptr : Nat), b.padding.length = 32 →
      ((b.push ptr).isSome ↔ b.len < 32)) ∧
    (∀ (b : TransferBatch) (ptr : Nat) (b2 : TransferBatch) (full : Bool),
      b.push ptr = some (b2, full) →
      b2.len = b.len + 1 ∧ b2.padding = b.padding.set b.len ptr ∧
        full = decide (b.len + 1 ≥ b.max_len)) ∧
    (∀ (c : CpuCache) (idx : Nat) (fl : ElasticList),
      idx < K_BASE_NUMBER_CLASSES →
      c.free_lists.get? idx = some fl →
      (c.scavenge_batch (some idx)).isSome = true) := by
  refine ⟨?_, ?_, ?_⟩
  · intro b ptr hpad
    unfold TransferBatch.push
    rw [hpad]
    by_cases h : b.len < 32
    · simp [h]
    · simp [h]
  · intro b ptr b2 full h
    unfold TransferBatch.push at h
    split at h
    · injection h with h2
      injection h2 with h3 h4
      rw [← h3, ← h4]
      exact ⟨rfl, rfl, rfl⟩
    · exact Option.noConfusion h
  · intro c idx fl hidx hfl
    obtain ⟨hn, hn1, hn32⟩ := num_to_move_bounds idx hidx
    obtain ⟨n, hne⟩ := Option.isSome_iff_exists.mp hn
    rw [hne] at hn1 hn32
    simp only [Option.getD_some] at hn1 hn32
    have hchar := scavLoop_char (scavFuel c idx) c idx fl (TransferBatch.new n) hfl hidx
      (by simp [TransferBatch.new, MAX_NUM_TO_MOVE])
      (by simp [TransferBatch.new, MAX_NUM_TO_MOVE])
      (by simp [TransferBatch.new, MAX_NUM_TO_MOVE]; omega)
      (by unfold scavFuel; rw [hfl])
    obtain ⟨c2, batch2, fl2, hloop, -⟩ := hchar
    simp [CpuCache.scavenge_batch, hne, hloop]

/-- C10 witness: the push test at a fresh 32-capacity batch and the
caller-safety statement at a fresh CPU cache and class 0. -/
theorem C10_push_bounds_witness :
    (((TransferBatch.new 32).push 5).isSome ↔ (TransferBatch.new 32).len < 32) ∧
    (CpuCache.new.scavenge_batch (some 0)).isSome = true :=
  ⟨C10_push_bounds.1 (TransferBatch.new 32) 5 (by decide),
   C10_push_bounds.2.2 CpuCache.new 0 ElasticList.new (by decide) (by decide)⟩

/-- Characterization of one `CpuCache::scavenge_batch(None)` call on the
seeded list: the list is reset (`overrange = 0`, drained) exactly when
its whole contents fit in one batch (`length < num_to_move`); otherwise
it loses `num_to_move` objects and `overrange` is untouched. -/
theorem scavenge_batch_char : ∀ (c : CpuCache) (idx : Nat) (fl : ElasticList) (n : Nat),
    c.reg.idx = some idx →
    idx < K_BASE_NUMBER_CLASSES →
    c.free_lists.get? idx = some fl →
    get_num_to_move idx = some n →
    1 ≤ n → n ≤ 32 →
    ∃ c2 fl2,
      c.scavenge_batch none = some c2 ∧
      c2.free_lists.get? idx = some fl2 ∧
      c2.free_lists.length = c.free_lists.length ∧
      c2.reg = c.reg ∧
      c2.stat = CpuCacheStat.Scavenge ∧
      c2.transfer_batch.isSome = true ∧
      fl2.max_overrange = fl.max_overrange ∧
      (fl.list.length < n → fl2.overrange = 0 ∧ fl2.list = []) ∧
      (n ≤ fl.list.length → fl2.overrange = fl.overrange ∧
        fl2.list.length + n = fl.list.length) := by
  intro c idx fl n hreg hidx hfl hne hn1 hn32
  have hmin : (TransferBatch.new n).max_len = n := by
    simp [TransferBatch.new, MAX_NUM_TO_MOVE]
    omega
  have hchar := scavLoop_char (scavFuel c idx) c idx fl (TransferBatch.new n) hfl hidx
    (by simp [TransferBatch.new, MAX_NUM_TO_MOVE])
    (by rw [hmin]; exact hn32)
    (by rw [hmin]; simpa [TransferBatch.new] using hn1)
    (by unfold scavFuel; rw [hfl])
  obtain ⟨c2, batch2, fl2, hloop, hget2, hlen2, hreg2, hstat2, htb2, hmo2, hA, hB⟩ := hchar
  refine ⟨{ c2 with transfer_batch := some batch2, stat := .Scavenge }, fl2, ?_,
    hget2, hlen2, hreg2, rfl, rfl, hmo2, ?_, ?_⟩
  · simp [CpuCache.scavenge_batch, hreg, hne, hloop]
  · intro h
    exact hA (by rw [hmin]; simpa [TransferBatch.new] using h)
  · intro h
    have := hB (by rw [hmin]; simpa [TransferBatch.new] using h)
    rw [hmin] at this
    simpa [TransferBatch.new] using this

/-! Claim C8. -/

/-- C8 counterexample: a per-CPU cache in the `Overranged` state (class 0
seeded, elastic list of length 33 with `overrange = 5 > 4`) whose single
`scavenge_batch` — as dispatched by `stat_handler` on `Overranged` —
completes with the batch full (num_to_move = 32 < 33) and leaves
`overrange` at 5, not 0. -/
theorem C8_counterexample :
    ((CpuCache.stat_handler
        { CpuCache.new with
          stat := .Overranged
          reg := ⟨some 0, none, none⟩
          size := 1000
          free_lists := (⟨List.range' 1000 33, 33, 5, 0, 5, 4⟩ : ElasticList) ::
            List.replicate 43 ElasticList.new }
        none).bind fun r => (r.1.free_lists.get? 0).map fun fl => fl.overrange) = some 5 ∧
    (5 : Nat) ≠ 0 := by
  exact ⟨by decide, by decide⟩

/-- C8 amended: a single `scavenge_batch` resets `overrange` to 0 only
when the list fully drains within the one batch (`length < num_to_move`);
for longer lists that one call leaves `overrange` unchanged.  The
complete `Overranged`-driven shrink — `scavenge_batch` repeated by the
state machine until `scavenged` no longer reports `Overranged` — does end
with `overrange = 0`, for every starting list length. -/
theorem C8_amended : ∀ (c : CpuCache) (idx : Nat) (fl : ElasticList),
    c.stat = .Overranged →
    c.reg.idx = some idx →
    idx < K_BASE_NUMBER_CLASSES →
    c.free_lists.get? idx = some fl →
    fl.overranged = true →
    (∀ n, get_num_to_move idx = some n → 1 ≤ n → n ≤ 32 → fl.list.length < n →
      ∃ c1 fl1, c.scavenge_batch none = some c1 ∧
        c1.free_lists.get? idx = some fl1 ∧ fl1.overrange = 0) ∧
    (∃ fuel c2 fl2, shrinkLoop c fuel = some c2 ∧
      c2.free_lists.get? idx = some fl2 ∧ fl2.overrange = 0 ∧
      c2.stat ≠ CpuCacheStat.Overranged) := by
  have MAIN : ∀ (N : Nat) (c : CpuCache) (idx : Nat) (fl : ElasticList),
      fl.list.length ≤ N →
      c.stat = .Overranged →
      c.reg.idx = some idx →
      idx < K_BASE_NUMBER_CLASSES →
      c.free_lists.get? idx = some fl →
      fl.overranged = true →
      ∃ fuel c2 fl2, shrinkLoop c fuel = some c2 ∧
        c2.free_lists.get? idx = some fl2 ∧ fl2.overrange = 0 ∧
        c2.stat ≠ CpuCacheStat.Overranged := by
    intro N
    induction N with
    | zero =>
      intro c idx fl hN hstat hreg hidx hfl hov
      obtain ⟨hn, hn1, hn32⟩ := num_to_move_bounds idx hidx
      obtain ⟨n, hne⟩ := Option.isSome_iff_exists.mp hn
      rw [hne] at hn1 hn32
      simp only [Option.getD_some] at hn1 hn32
      obtain ⟨c1, fl1, hsc, hget1, hlen1, hreg1, hstat1, -, hmo1, hA, -⟩ :=
        scavenge_batch_char c idx fl n hreg hidx hfl hne hn1 hn32
      obtain ⟨hov1, -⟩ := hA (by omega)
      have hro : ({ c1 with transfer_batch := none } : CpuCache).overrangedAt idx =
          some false := by
        simp [CpuCache.overrangedAt, List.get?_eq_getElem?] at hget1 ⊢
        rw [hget1]
        simp [ElasticList.overranged, hov1]
      have hregidx : c1.reg.idx = some idx := by rw [hreg1]; exact hreg
      by_cases hovz : ({ c1 with transfer_batch := none } : CpuCache).oversized = true
      · have hscav : CpuCache.scavenged { c1 with transfer_batch := none } =
            some { c1 with transfer_batch := none, stat := .Oversized } := by
          simp [CpuCache.scavenged, hregidx, hro, hovz]
        refine ⟨2, { c1 with transfer_batch := none, stat := .Oversized }, fl1, ?_, hget1,
          hov1, by simp⟩
        show shrinkLoop c 2 = _
        simp [shrinkLoop, hstat, hsc, hscav]
      · have hscav : CpuCache.scavenged { c1 with transfer_batch := none } =
            some { c1 with transfer_batch := none, stat := .Ready } := by
          simp [CpuCache.scavenged, hregidx, hro, hovz]
        refine ⟨2, { c1 with transfer_batch := none, stat := .Ready }, fl1, ?_, hget1,
          hov1, by simp⟩
        show shrinkLoop c 2 = _
        simp [shrinkLoop, hstat, hsc, hscav]
    | succ m ih =>
      intro c idx fl hN hstat hreg hidx hfl hov
      obtain ⟨hn, hn1, hn32⟩ := num_to_move_bounds idx hidx
      obtain ⟨n, hne⟩ := Option.isSome_iff_exists.mp hn
      rw [hne] at hn1 hn32
      simp only [Option.getD_some] at hn1 hn32
      obtain ⟨c1, fl1, hsc, hget1, hlen1, hreg1, hstat1, -, hmo1, hA, hB⟩ :=
        scavenge_batch_char c idx fl n hreg hidx hfl hne hn1 hn32
      by_cases hlong : fl.list.length < n
      · obtain ⟨hov1, -⟩ := hA hlong
        have hro : ({ c1 with transfer_batch := none } : CpuCache).overrangedAt idx =
            some false := by
          simp [CpuCache.overrangedAt, List.get?_eq_getElem?] at hget1 ⊢
          rw [hget1]
          simp [ElasticList.overranged, hov1]
        have hregidx : c1.reg.idx = some idx := by rw [hreg1]; exact hreg
        by_cases hovz : ({ c1 with transfer_batch := none } : CpuCache).oversized = true
        · have hscav : CpuCache.scavenged { c1 with transfer_batch := none } =
              some { c1 with transfer_batch := none, stat := .Oversized } := by
            simp [CpuCache.scavenged, hregidx, hro, hovz]
          refine ⟨2, { c1 with transfer_batch := none, stat := .Oversized }, fl1, ?_, hget1,
            hov1, by simp⟩
          show shrinkLoop c 2 = _
          simp [shrinkLoop, hstat, hsc, hscav]
        · have hscav : CpuCache.scavenged { c1 with transfer_batch := none } =
              some { c1 with transfer_batch := none, stat := .Ready } := by
            simp [CpuCache.scavenged, hregidx, hro, hovz]
          refine ⟨2, { c1 with transfer_batch := none, stat := .Ready }, fl1, ?_, hget1,
            hov1, by simp⟩
          show shrinkLoop c 2 = _
          simp [shrinkLoop, hstat, hsc, hscav]
      · obtain ⟨hov1, hlen1b⟩ := hB (by omega)
        have hovtrue : fl1.overranged = true := by
          simp [ElasticList.overranged, hov1, hmo1]
          simp [ElasticList.overranged] at hov
          omega
        have hscav : CpuCache.scavenged { c1 with transfer_batch := none } =
            some { c1 with transfer_batch := none, stat := .Overranged } := by
          have hro : ({ c1 with transfer_batch := none } : CpuCache).overrangedAt idx =
              some true := by
            simp [CpuCache.overrangedAt, List.get?_eq_getElem?] at hget1 ⊢
            rw [hget1]
            simpa [ElasticList.overranged] using hovtrue
          have hregidx : c1.reg.idx = some idx := by rw [hreg1]; exact hreg
          simp [CpuCache.scavenged, hregidx, hro]
        obtain ⟨fuel, c2, fl2, hloop, hget2, hov2, hstat2⟩ :=
          ih { c1 with transfer_batch := none, stat := .Overranged } idx fl1
            (by omega) rfl (by show c1.reg.idx = some idx; rw [hreg1]; exact hreg) hidx hget1 hovtrue
        refine ⟨fuel + 1, c2, fl2, ?_, hget2, hov2, hstat2⟩
        show shrinkLoop c (fuel + 1) = _
        simp only [shrinkLoop, hstat, hsc, hscav]
        exact hloop
  intro c idx fl hstat hreg hidx hfl hov
  constructor
  · intro n hne hn1 hn32 hshort
    obtain ⟨c1, fl1, hsc, hget1, -, -, -, -, -, hA, -⟩ :=
      scavenge_batch_char c idx fl n hreg hidx hfl hne hn1 hn32
    exact ⟨c1, fl1, hsc, hget1, (hA hshort).1⟩
  · exact MAIN fl.list.length c idx fl (Nat.le_refl _) hstat hreg hidx hfl hov

/-- C8 amended, witness: the theorem applied at a concrete overranged
cache (class 0, list length 3 < num_to_move 32, overrange 5). -/
theorem C8_amended_witness :
    ((∀ n, get_num_to_move 0 = some n → 1 ≤ n → n ≤ 32 →
        (⟨[70, 71, 72], 3, 2, 0, 5, 4⟩ : ElasticList).list.length < n →
        ∃ c1 fl1,
          CpuCache.scavenge_batch
            { CpuCache.new with
              stat := .Overranged
              reg := ⟨some 0, none, none⟩
              size := 24
              free_lists := (⟨[70, 71, 72], 3, 2, 0, 5, 4⟩ : ElasticList) ::
                List.replicate 43 ElasticList.new } none = some c1 ∧
          c1.free_lists.get? 0 = some fl1 ∧ fl1.overrange = 0) ∧
      (∃ fuel c2 fl2,
        shrinkLoop
          { CpuCache.new with
            stat := .Overranged
            reg := ⟨some 0, none, none⟩
            size := 24
            free_lists := (⟨[70, 71, 72], 3, 2, 0, 5, 4⟩ : ElasticList) ::
              List.replicate 43 ElasticList.new } fuel = some c2 ∧
        c2.free_lists.get? 0 = some fl2 ∧ fl2.overrange = 0 ∧
        c2.stat ≠ CpuCacheStat.Overranged)) :=
  C8_amended
    { CpuCache.new with
      stat := .Overranged
      reg := ⟨some 0, none, none⟩
      size := 24
      free_lists := (⟨[70, 71, 72], 3, 2, 0, 5, 4⟩ : ElasticList) ::
        List.replicate 43 ElasticList.new }
    0 ⟨[70, 71, 72], 3, 2, 0, 5, 4⟩ rfl rfl (by decide) (by decide) (by decide)

/-- Accumulator invariant of `coldAux`: either no non-empty list beats
the running minimum (and the accumulator is returned, every non-empty
color being at least `mc`), or the result names the first non-empty list
attaining the minimum color of the walked segment. -/
theorem coldAux_cases : ∀ (ls : List ElasticList) (idx mi mc : Nat),
    (coldAux ls idx mi mc = (mi, mc) ∧
      ∀ (j : Nat) (fl : ElasticList), ls[j]? = some fl → fl.is_empty = false → mc ≤ fl.color) ∨
    (∃ (j : Nat) (fl : ElasticList), ls[j]? = some fl ∧ fl.is_empty = false ∧
      coldAux ls idx mi mc = (idx + j, fl.color) ∧ fl.color < mc ∧
      (∀ (i : Nat) (fli : ElasticList), i < j → ls[i]? = some fli → fli.is_empty = false →
        fl.color < fli.color) ∧
      (∀ (i : Nat) (fli : ElasticList), ls[i]? = some fli → fli.is_empty = false →
        fl.color ≤ fli.color)) := by
  intro ls
  induction ls with
  | nil =>
    intro idx mi mc
    left
    refine ⟨rfl, ?_⟩
    intro j fl h
    simp at h
  | cons fl0 rest ih =>
    intro idx mi mc
    by_cases hsel : fl0.is_empty = false ∧ fl0.color < mc
    · have hstep : coldAux (fl0 :: rest) idx mi mc = coldAux rest (idx + 1) idx fl0.color := by
        simp [coldAux, hsel.1, hsel.2]
      rcases ih (idx + 1) idx fl0.color with ⟨heq, hmin⟩ | ⟨j, fl, hget, hne, heq, hlt, hfirst, hmin⟩
      · right
        refine ⟨0, fl0, by simp, hsel.1, ?_, hsel.2, ?_, ?_⟩
        · rw [hstep, heq]
          simp
        · intro i fli hi hg hn2
          omega
        · intro i fli hget2 hne2
          match i, hget2 with
          | 0, hget2 =>
            simp at hget2
            subst hget2
            exact Nat.le_refl _
          | i + 1, hget2 =>
            simp at hget2
            exact hmin i fli hget2 hne2
      · right
        refine ⟨j + 1, fl, by simpa using hget, hne, ?_, by omega, ?_, ?_⟩
        · rw [hstep, heq]
          simp
          omega
        · intro i fli hi hget2 hne2
          match i, hget2 with
          | 0, hget2 =>
            simp at hget2
            subst hget2
            omega
          | i + 1, hget2 =>
            simp at hget2
            exact hfirst i fli (by omega) hget2 hne2
        · intro i fli hget2 hne2
          match i, hget2 with
          | 0, hget2 =>
            simp at hget2
            subst hget2
            omega
          | i + 1, hget2 =>
            simp at hget2
            exact hmin i fli hget2 hne2
    · have hstep : coldAux (fl0 :: rest) idx mi mc = coldAux rest (idx + 1) mi mc := by
        have hcond : (!fl0.is_empty && decide (fl0.color < mc)) = false := by
          by_cases h1 : fl0.is_empty = false
          · have h2 : ¬ fl0.color < mc := fun h2 => hsel ⟨h1, h2⟩
            simp [h2]
          · simp at h1
            simp [h1]
        simp [coldAux, hcond]
      rcases ih (idx + 1) mi mc with ⟨heq, hmin⟩ | ⟨j, fl, hget, hne, heq, hlt, hfirst, hmin⟩
      · left
        refine ⟨hstep.trans heq, ?_⟩
        intro i fli hget2 hne2
        match i, hget2 with
        | 0, hget2 =>
          simp at hget2
          subst hget2
          by_cases hc : fl0.color < mc
          · exact absurd ⟨hne2, hc⟩ hsel
          · omega
        | i + 1, hget2 =>
          simp at hget2
          exact hmin i fli hget2 hne2
      · right
        refine ⟨j + 1, fl, by simpa using hget, hne, ?_, hlt, ?_, ?_⟩
        · rw [hstep, heq]
          simp
          omega
        · intro i fli hi hget2 hne2
          match i, hget2 with
          | 0, hget2 =>
            simp at hget2
            subst hget2
            by_cases hc : fl0.color < mc
            · exact absurd ⟨hne2, hc⟩ hsel
            · omega
          | i + 1, hget2 =>
            simp at hget2
            exact hfirst i fli (by omega) hget2 hne2
        · intro i fli hget2 hne2
          match i, hget2 with
          | 0, hget2 =>
            simp at hget2
            subst hget2
            by_cases hc : fl0.color < mc
            · exact absurd ⟨hne2, hc⟩ hsel
            · omega
          | i + 1, hget2 =>
            simp at hget2
            exact hmin i fli hget2 hne2

/-! Claim C6. -/

/-- C6: in the `Oversized` state, `stat_handler` scavenges exactly the
class returned by `cold()`, and that class is the argmin of `color` over
the non-empty elastic lists: its list is non-empty, its color is minimal
among all non-empty lists, and any earlier index attaining the same
color would have been chosen instead (strict minimality below `k`). -/
theorem C6_cold_argmin : ∀ (c : CpuCache) (s : Option CpuCacheStat) (k : Nat),
    c.stat = .Oversized →
    c.cold = some k →
    (CpuCache.stat_handler c s =
      (c.scavenge_batch (some k)).map fun c2 => (c2, cpuFlowOf c2.stat)) ∧
    ∃ flk, c.free_lists[k]? = some flk ∧ flk.is_empty = false ∧
      (∀ (j : Nat) (flj : ElasticList), c.free_lists[j]? = some flj → flj.is_empty = false →
        flk.color ≤ flj.color) ∧
      (∀ (j : Nat) (flj : ElasticList), j < k → c.free_lists[j]? = some flj →
        flj.is_empty = false → flk.color < flj.color) := by
  intro c s k hstat hcold
  constructor
  · unfold CpuCache.stat_handler
    rw [hstat, hcold]
  · unfold CpuCache.cold at hcold
    rcases coldAux_cases c.free_lists 0 0 USIZE_MAX with ⟨heq, hmin⟩ |
      ⟨j, fl, hget, hne, heq, hlt, hfirst, hmin⟩
    · rw [heq] at hcold
      simp at hcold
    · rw [heq] at hcold
      rw [if_pos (by simpa using hlt)] at hcold
      injection hcold with hk
      refine ⟨fl, ?_, hne, hmin, ?_⟩
      · rw [← hk]
        simpa using hget
      · intro i fli hi hget2 hne2
        exact hfirst i fli (by omega) hget2 hne2

/-- C6 witness: the theorem applied at a concrete oversized cache whose
coldest non-empty list is index 1 (colors 7, 3, with list 2 empty). -/
theorem C6_cold_argmin_witness :
    ((CpuCache.stat_handler
        { CpuCache.new with
          stat := .Oversized
          free_lists := [⟨[40], 1, 4, 7, 0, 4⟩, ⟨[50], 1, 4, 3, 0, 4⟩, ⟨[], 0, 4, 1, 0, 4⟩] }
        none =
      (CpuCache.scavenge_batch
        { CpuCache.new with
          stat := .Oversized
          free_lists := [⟨[40], 1, 4, 7, 0, 4⟩, ⟨[50], 1, 4, 3, 0, 4⟩, ⟨[], 0, 4, 1, 0, 4⟩] }
        (some 1)).map fun c2 => (c2, cpuFlowOf c2.stat)) ∧
      ∃ flk,
        ({ CpuCache.new with
          stat := .Oversized
          free_lists := [⟨[40], 1, 4, 7, 0, 4⟩, ⟨[50], 1, 4, 3, 0, 4⟩, ⟨[], 0, 4, 1, 0, 4⟩] } :
            CpuCache).free_lists[1]? = some flk ∧
        flk.is_empty = false ∧
        (∀ (j : Nat) (flj : ElasticList),
          ({ CpuCache.new with
            stat := .Oversized
            free_lists := [⟨[40], 1, 4, 7, 0, 4⟩, ⟨[50], 1, 4, 3, 0, 4⟩, ⟨[], 0, 4, 1, 0, 4⟩] } :
              CpuCache).free_lists[j]? = some flj → flj.is_empty = false →
          flk.color ≤ flj.color) ∧
        (∀ (j : Nat) (flj : ElasticList), j < 1 →
          ({ CpuCache.new with
            stat := .Oversized
            free_lists := [⟨[40], 1, 4, 7, 0, 4⟩, ⟨[50], 1, 4, 3, 0, 4⟩, ⟨[], 0, 4, 1, 0, 4⟩] } :
              CpuCache).free_lists[j]? = some flj → flj.is_empty = false →
          flk.color < flj.color)) :=
  C6_cold_argmin
    { CpuCache.new with
      stat := .Oversized
      free_lists := [⟨[40], 1, 4, 7, 0, 4⟩, ⟨[50], 1, 4, 3, 0, 4⟩, ⟨[], 0, 4, 1, 0, 4⟩] }
    none 1 rfl (by decide)

/-- The unassignment loop preserves the array length. -/
theorem markRange_length : ∀ (cells : List (Bool × Nat)) (start pages i0 : Nat),
    (markRange start pages i0 cells).length = cells.length := by
  intro cells
  induction cells with
  | nil => intro start pages i0; rfl
  | cons c rest ih =>
    intro start pages i0
    simp [markRange, ih]

/-- Pointwise effect of the unassignment loop: a cell in the index window
loses its assigned flag and keeps its address; every other cell is
untouched. -/
theorem markRange_getElem? : ∀ (cells : List (Bool × Nat)) (start pages i0 j : Nat),
    (markRange start pages i0 cells)[j]? =
      (cells[j]?).map fun cell =>
        if start ≤ i0 + j ∧ i0 + j < start + pages then (false, cell.2) else cell := by
  intro cells
  induction cells with
  | nil => intro start pages i0 j; simp [markRange]
  | cons c rest ih =>
    intro start pages i0 j
    match j with
    | 0 => simp [markRange]
    | j + 1 =>
      simp only [markRange, List.getElem?_cons_succ]
      rw [show i0 + (j + 1) = (i0 + 1) + j by omega]
      exact ih start pages (i0 + 1) j

/-! Claim C7. -/

/-- C7: `PageHeap::dealloc_pages` on a well-formed primary heap.  When
the span `[addr, addr + pages·K_PAGE_SIZE)` lies inside the primary heap
range, the covered cells are marked unassigned (addresses kept), every
other cell is unchanged, and the heap returns to `Ready`; otherwise the
state moves to `Uncovered`, the span is parked in the `transfer_span`
mailbox for the driver to forward, and the primary heap — every
`assigned` flag included — is left exactly unchanged. -/
theorem C7_dealloc_pages : ∀ (p : PageHeap) (addr pages b : Nat),
    p.reg.ptr = some addr →
    p.reg.pages = some pages →
    p.primary_heap.length = K_PRIMARY_HEAP_LEN →
    (∀ i, i < K_PRIMARY_HEAP_LEN →
      (p.primary_heap[i]?).map Prod.snd = some (b + i * K_PAGE_SIZE)) →
    (b ≤ addr ∧ addr + pages * K_PAGE_SIZE ≤ b + K_PRIMARY_HEAP_LEN * K_PAGE_SIZE →
      ∃ p2, p.dealloc_pages = some p2 ∧ p2.stat = .Ready ∧
        p2.transfer_span = p.transfer_span ∧
        p2.primary_heap.length = p.primary_heap.length ∧
        (∀ (j : Nat) (cell : Bool × Nat), p.primary_heap[j]? = some cell →
          p2.primary_heap[j]? =
            some (if (addr - b) / K_PAGE_SIZE ≤ j ∧ j < (addr - b) / K_PAGE_SIZE + pages
              then (false, cell.2) else cell))) ∧
    (¬(b ≤ addr ∧ addr + pages * K_PAGE_SIZE ≤ b + K_PRIMARY_HEAP_LEN * K_PAGE_SIZE) →
      ∃ p2, p.dealloc_pages = some p2 ∧ p2.stat = .Uncovered ∧
        p2.transfer_span = some ⟨pages, addr⟩ ∧
        p2.primary_heap = p.primary_heap) := by
  intro p addr pages b hptr hpages hlen hcells
  have h256 : K_PRIMARY_HEAP_LEN = 256 := rfl
  have hpg : K_PAGE_SIZE = 4096 := rfl
  have hhead : ∃ first, p.primary_heap.head? = some first ∧ first.2 = b := by
    have h0 := hcells 0 (by omega)
    obtain ⟨first, hf1, hf2⟩ := Option.map_eq_some'.mp h0
    exact ⟨first, by rw [List.head?_eq_getElem?]; exact hf1, by simpa using hf2⟩
  have hlast : ∃ last, p.primary_heap.getLast? = some last ∧
      last.2 = b + 255 * K_PAGE_SIZE := by
    have h255 := hcells 255 (by omega)
    obtain ⟨last, hl1, hl2⟩ := Option.map_eq_some'.mp h255
    refine ⟨last, ?_, hl2⟩
    rw [List.getLast?_eq_getElem?, hlen, h256]
    exact hl1
  obtain ⟨first, hf1, hf2⟩ := hhead
  obtain ⟨last, hl1, hl2⟩ := hlast
  have hshift : pages <<< K_PAGE_SHIFT = pages * K_PAGE_SIZE := by
    rw [Nat.shiftLeft_eq]
    rfl
  have hshiftr : (addr - first.2) >>> K_PAGE_SHIFT = (addr - b) / K_PAGE_SIZE := by
    rw [Nat.shiftRight_eq_div_pow, hf2]
    rfl
  constructor
  · intro hcov
    have hcond : addr ≥ first.2 ∧ addr + pages <<< K_PAGE_SHIFT ≤ last.2 + K_PAGE_SIZE := by
      rw [hf2, hl2, hshift]
      constructor
      · exact hcov.1
      · have := hcov.2
        rw [h256] at this
        omega
    have hstart : (addr - b) / K_PAGE_SIZE + pages ≤ p.primary_heap.length := by
      rw [hlen, h256]
      rw [hpg] at hcov ⊢
      have h1 : (addr - b) / 4096 * 4096 ≤ addr - b := Nat.div_mul_le_self _ _
      have h2 := hcov.1
      have h3 := hcov.2
      rw [h256] at h3
      omega
    refine ⟨{ p with
        primary_heap := markRange ((addr - b) / K_PAGE_SIZE) pages 0 p.primary_heap
        stat := .Ready }, ?_, rfl, rfl, by simp [markRange_length], ?_⟩
    · simp only [PageHeap.dealloc_pages, hptr, hpages, hf1, hl1]
      rw [if_pos hcond]
      rw [hshiftr]
      rw [if_pos hstart]
    · intro j cell hcell
      show (markRange ((addr - b) / K_PAGE_SIZE) pages 0 p.primary_heap)[j]? = _
      rw [markRange_getElem?, hcell]
      simp
  · intro hncov
    have hcond : ¬(addr ≥ first.2 ∧ addr + pages <<< K_PAGE_SHIFT ≤ last.2 + K_PAGE_SIZE) := by
      rw [hf2, hl2, hshift]
      intro hx
      apply hncov
      refine ⟨hx.1, ?_⟩
      have := hx.2
      rw [h256]
      omega
    refine ⟨{ p with transfer_span := some ⟨pages, addr⟩, stat := .Uncovered }, ?_, rfl, rfl, rfl⟩
    simp only [PageHeap.dealloc_pages, hptr, hpages, hf1, hl1]
    rw [if_neg hcond]

set_option maxRecDepth 4096 in
/-- C7 witness: the theorem applied at the freshly initialized heap based
at 4096 with a covered 1-page deallocation seeded at address 8192. -/
theorem C7_dealloc_pages_witness :
    ((4096 : Nat) ≤ 8192 ∧ (8192 : Nat) + 1 * K_PAGE_SIZE ≤ 4096 + K_PRIMARY_HEAP_LEN * K_PAGE_SIZE) ∧
    ∃ p2, PageHeap.dealloc_pages
        { (PageHeap.new.init 4096) with reg := ⟨some 8192, some 1⟩ } = some p2 ∧
      p2.stat = .Ready ∧
      p2.transfer_span =
        ({ (PageHeap.new.init 4096) with reg := ⟨some 8192, some 1⟩ } : PageHeap).transfer_span ∧
      p2.primary_heap.length =
        ({ (PageHeap.new.init 4096) with reg := ⟨some 8192, some 1⟩ } : PageHeap).primary_heap.length ∧
      (∀ (j : Nat) (cell : Bool × Nat),
        ({ (PageHeap.new.init 4096) with reg := ⟨some 8192, some 1⟩ } :
          PageHeap).primary_heap[j]? = some cell →
        p2.primary_heap[j]? =
          some (if (8192 - 4096) / K_PAGE_SIZE ≤ j ∧ j < (8192 - 4096) / K_PAGE_SIZE + 1
            then (false, cell.2) else cell)) :=
  ⟨⟨by decide, by decide⟩,
    (C7_dealloc_pages { (PageHeap.new.init 4096) with reg := ⟨some 8192, some 1⟩ }
      8192 1 4096 rfl rfl (by decide) (by decide)).1 ⟨by decide, by decide⟩⟩

/-- Writing one slot past the filled prefix and extending the take by one
appends the written element. -/
theorem take_set_append : ∀ (l : List Nat) (n x : Nat), n < l.length →
    (l.set n x).take (n + 1) = l.take n ++ [x] := by
  intro l
  induction l with
  | nil => intro n x h; simp at h
  | cons a rest ih =>
    intro n x h
    match n with
    | 0 => simp
    | n + 1 =>
      simp only [List.set_cons_succ, List.take_succ_cons, List.cons_append]
      rw [ih n x (by simpa using h)]

/-- A successful batch push appends the pointer to the batch contents. -/
theorem push_contents : ∀ (b : TransferBatch) (ptr : Nat) (b2 : TransferBatch) (full : Bool),
    b.push ptr = some (b2, full) →
    b2.contents = b.contents ++ [ptr] ∧ b2.len = b.len + 1 ∧
      b2.max_len = b.max_len ∧ b2.padding.length = b.padding.length ∧
      full = decide (b.len + 1 ≥ b.max_len) := by
  intro b ptr b2 full h
  unfold TransferBatch.push at h
  split at h
  next hlt =>
    injection h with h2
    injection h2 with h3 h4
    subst h3
    refine ⟨?_, rfl, rfl, by simp, h4.symm⟩
    unfold TransferBatch.contents
    exact take_set_append b.padding b.len ptr hlt
  next => exact Option.noConfusion h

/-- The filled prefix has exactly `len` entries while `len` stays within
the slot array. -/
theorem contents_length : ∀ (b : TransferBatch), b.len ≤ b.padding.length →
    b.contents.length = b.len := by
  intro b h
  unfold TransferBatch.contents
  simp
  omega

/-- The accumulator of the `hot` walk ends at the last non-empty index
(offset by the running index), or keeps its seed when every list is
empty: with the color comparison commented out in the source, every
non-empty list overwrites the accumulator. -/
theorem lastNonEmptyIdx_cons : ∀ (fl : BoundedList) (rest : List BoundedList),
    lastNonEmptyIdx (fl :: rest) =
      match lastNonEmptyIdx rest with
      | some j => some (j + 1)
      | none => if !fl.is_empty then some 0 else none :=
  fun _ _ => rfl

theorem hotAux_fst : ∀ (ls : List BoundedList) (idx hot color : Nat),
    (hotAux ls idx hot color).1 =
      match lastNonEmptyIdx ls with
      | some j => idx + j
      | none => hot := by
  intro ls
  induction ls with
  | nil => intro idx hot color; rfl
  | cons fl rest ih =>
    intro idx hot color
    by_cases hfl : fl.is_empty = true
    · have hstep : hotAux (fl :: rest) idx hot color = hotAux rest (idx + 1) hot color := by
        simp [hotAux, hfl]
      rw [hstep, ih, lastNonEmptyIdx_cons]
      cases hrest : lastNonEmptyIdx rest with
      | none => simp [hfl]
      | some j =>
        show idx + 1 + j = idx + (j + 1)
        omega
    · have hfl2 : fl.is_empty = false := by simpa using hfl
      have hstep : hotAux (fl :: rest) idx hot color = hotAux rest (idx + 1) idx fl.color := by
        simp [hotAux, hfl2]
      rw [hstep, ih, lastNonEmptyIdx_cons]
      cases hrest : lastNonEmptyIdx rest with
      | none => simp [hfl2]
      | some j =>
        show idx + 1 + j = idx + (j + 1)
        omega

/-- A last-non-empty index is in range. -/
theorem lastNonEmptyIdx_lt : ∀ (ls : List BoundedList) (j : Nat),
    lastNonEmptyIdx ls = some j → j < ls.length := by
  intro ls
  induction ls with
  | nil => intro j h; exact Option.noConfusion h
  | cons fl rest ih =>
    intro j h
    unfold lastNonEmptyIdx at h
    cases hrest : lastNonEmptyIdx rest with
    | some j0 =>
      rw [hrest] at h
      injection h with h2
      have := ih j0 hrest
      simp
      omega
    | none =>
      rw [hrest] at h
      by_cases hfl : fl.is_empty
      · simp [hfl] at h
      · simp [hfl] at h
        subst h
        simp

/-- When no list is non-empty, every indexed list is empty. -/
theorem lastNonEmptyIdx_none : ∀ (ls : List BoundedList),
    lastNonEmptyIdx ls = none →
    ∀ (i : Nat) (fli : BoundedList), ls[i]? = some fli → fli.is_empty = true := by
  intro ls
  induction ls with
  | nil => intro _ i fli h; simp at h
  | cons fl rest ih =>
    intro hnone i fli hget
    unfold lastNonEmptyIdx at hnone
    cases hrest : lastNonEmptyIdx rest with
    | some j0 => rw [hrest] at hnone; exact Option.noConfusion hnone
    | none =>
      rw [hrest] at hnone
      by_cases hfl : fl.is_empty
      · match i, hget with
        | 0, hget =>
          simp at hget
          subst hget
          exact hfl
        | i + 1, hget =>
          simp at hget
          exact ih hrest i fli hget
      · simp [hfl] at hnone

/-- The last-non-empty index names a non-empty list and every later index
an empty one. -/
theorem lastNonEmptyIdx_spec : ∀ (ls : List BoundedList) (j : Nat),
    lastNonEmptyIdx ls = some j →
    ∃ fl, ls[j]? = some fl ∧ fl.is_empty = false ∧
      ∀ (i : Nat) (fli : BoundedList), j < i → ls[i]? = some fli → fli.is_empty = true := by
  intro ls
  induction ls with
  | nil => intro j h; exact Option.noConfusion h
  | cons fl rest ih =>
    intro j h
    unfold lastNonEmptyIdx at h
    cases hrest : lastNonEmptyIdx rest with
    | some j0 =>
      rw [hrest] at h
      injection h with h2
      subst h2
      obtain ⟨fl0, hget0, hne0, hemp0⟩ := ih j0 hrest
      refine ⟨fl0, by simpa using hget0, hne0, ?_⟩
      intro i fli hi hget2
      match i, hget2 with
      | i + 1, hget2 =>
        simp at hget2
        exact hemp0 i fli (by omega) hget2
    | none =>
      rw [hrest] at h
      by_cases hfl : fl.is_empty
      · simp [hfl] at h
      · simp [hfl] at h
        subst h
        refine ⟨fl, by simp, by simpa using hfl, ?_⟩
        intro i fli hi hget2
        match i, hget2 with
        | i + 1, hget2 =>
          simp at hget2
          exact lastNonEmptyIdx_none rest hrest i fli hget2

/-- With the color comparison commented out, `TransferCache::hot` returns
exactly the LAST non-empty bounded list in iteration order. -/
theorem hot_eq_lastNonEmpty : ∀ (tc : TransferCache),
    tc.free_lists.length ≤ K_MAX_NUMBER_SPAN →
    tc.hot = lastNonEmptyIdx tc.free_lists := by
  intro tc hlen
  have h512 : (K_MAX_NUMBER_SPAN : Nat) < USIZE_MAX := by decide
  show (if (hotAux tc.free_lists 0 USIZE_MAX 0).1 < USIZE_MAX
    then some (hotAux tc.free_lists 0 USIZE_MAX 0).1 else none) = _
  rw [hotAux_fst]
  cases h : lastNonEmptyIdx tc.free_lists with
  | none =>
    simp
  | some j =>
    have hj := lastNonEmptyIdx_lt tc.free_lists j h
    show (if 0 + j < USIZE_MAX then some (0 + j) else none) = some j
    rw [if_pos (by omega)]
    simp

/-- Unfolding equation of `allocLoop` at positive fuel. -/
theorem allocLoop_succ (tc : TransferCache) (batch : TransferBatch) (n : Nat) :
    allocLoop tc batch (n + 1) =
      match tc.hot with
      | none => some (tc, batch)
      | some hot =>
        match tc.popIdx hot with
        | none => none
        | some (none, tc2) => some (tc2, batch)
        | some (some ptr, tc2) =>
          match batch.push ptr with
          | none => none
          | some (batch2, full) =>
            if full then some (tc2, batch2) else allocLoop tc2 batch2 n := rfl

/-- Unfolding equation of `specRefill` at positive fuel. -/
theorem specRefill_succ (ls : List BoundedList) (acc : List Nat) (n fuel : Nat) :
    specRefill (fuel + 1) ls acc n =
      match lastNonEmptyIdx ls with
      | none => some (ls, acc)
      | some k =>
        match ls.get? k with
        | none => none
        | some fl =>
          match fl.pop with
          | none => some (ls, acc)
          | some (pf, fl2) =>
            if acc.length + 1 ≥ n then some (ls.set k fl2, acc ++ [pf.1])
            else specRefill fuel (ls.set k fl2) (acc ++ [pf.1]) n := rfl

/-- One step of the refill loop agrees with the spec-side description:
both pop from the last non-empty list and stop on the same condition. -/
theorem allocLoop_eq_specRefill : ∀ (fuel : Nat) (tc : TransferCache) (batch : TransferBatch),
    batch.padding.length = 32 → batch.max_len ≤ 32 → batch.len < 32 →
    tc.free_lists.length ≤ K_MAX_NUMBER_SPAN →
    (allocLoop tc batch fuel).map (fun r => (r.1.free_lists, r.2.contents)) =
      specRefill fuel tc.free_lists batch.contents batch.max_len := by
  intro fuel
  induction fuel with
  | zero => intro tc batch _ _ _ _; rfl
  | succ n ih =>
    intro tc batch hpad hml hlt hlen
    have hcl : batch.contents.length = batch.len := contents_length batch (by omega)
    cases hLNE : lastNonEmptyIdx tc.free_lists with
    | none =>
      have h1 : allocLoop tc batch (n + 1) = some (tc, batch) := by
        rw [allocLoop_succ]
        rw [hot_eq_lastNonEmpty tc hlen, hLNE]
      have h2 : specRefill (n + 1) tc.free_lists batch.contents batch.max_len =
          some (tc.free_lists, batch.contents) := by
        rw [specRefill_succ]
        rw [hLNE]
      rw [h1, h2]
      rfl
    | some k =>
      cases hget : tc.free_lists.get? k with
      | none =>
        have hpopIdx : tc.popIdx k = none := by
          unfold TransferCache.popIdx
          rw [hget]
        have h1 : allocLoop tc batch (n + 1) = none := by
          rw [allocLoop_succ]
          simp only [hot_eq_lastNonEmpty tc hlen, hLNE, hpopIdx]
        have h2 : specRefill (n + 1) tc.free_lists batch.contents batch.max_len = none := by
          rw [specRefill_succ]
          simp only [hLNE, hget]
        rw [h1, h2]
        rfl
      | some fl =>
        cases hpop : fl.pop with
        | none =>
          have hpopIdx : tc.popIdx k = some (none, tc) := by
            unfold TransferCache.popIdx
            simp only [hget, hpop]
          have h1 : allocLoop tc batch (n + 1) = some (tc, batch) := by
            rw [allocLoop_succ]
            simp only [hot_eq_lastNonEmpty tc hlen, hLNE, hpopIdx]
          have h2 : specRefill (n + 1) tc.free_lists batch.contents batch.max_len =
              some (tc.free_lists, batch.contents) := by
            rw [specRefill_succ]
            simp only [hLNE, hget, hpop]
          rw [h1, h2]
          rfl
        | some pr =>
          obtain ⟨pf, fl2⟩ := pr
          have hpopIdx : tc.popIdx k = some (some pf.1,
              { tc with
                free_lists := tc.free_lists.set k fl2
                full_num := if pf.2 then tc.full_num - 1 else tc.full_num }) := by
            unfold TransferCache.popIdx
            simp only [hget, hpop]
          obtain ⟨batch2, full, hpush⟩ : ∃ batch2 full, batch.push pf.1 = some (batch2, full) := by
            unfold TransferBatch.push
            rw [if_pos (by omega)]
            exact ⟨_, _, rfl⟩
          obtain ⟨hc2, hl2, hm2, hp2, hf2⟩ := push_contents batch pf.1 batch2 full hpush
          subst hf2
          by_cases hfull : batch.len + 1 ≥ batch.max_len
          · have hdec : decide (batch.len + 1 ≥ batch.max_len) = true := by
              simpa using hfull
            have h1 : allocLoop tc batch (n + 1) = some
                ({ tc with
                  free_lists := tc.free_lists.set k fl2
                  full_num := if pf.2 then tc.full_num - 1 else tc.full_num }, batch2) := by
              rw [allocLoop_succ]
              simp only [hot_eq_lastNonEmpty tc hlen, hLNE, hpopIdx, hpush, hdec, if_true]
            have h2 : specRefill (n + 1) tc.free_lists batch.contents batch.max_len =
                some (tc.free_lists.set k fl2, batch.contents ++ [pf.1]) := by
              rw [specRefill_succ]
              simp only [hLNE, hget, hpop]
              rw [if_pos (by omega)]
            rw [h1, h2]
            simp [hc2]
          · have hdec : decide (batch.len + 1 ≥ batch.max_len) = false := by
              simpa using hfull
            have h1 : allocLoop tc batch (n + 1) = allocLoop
                { tc with
                  free_lists := tc.free_lists.set k fl2
                  full_num := if pf.2 then tc.full_num - 1 else tc.full_num } batch2 n := by
              rw [allocLoop_succ]
              simp only [hot_eq_lastNonEmpty tc hlen, hLNE, hpopIdx, hpush, hdec,
                Bool.false_eq_true, if_false]
            have h2 : specRefill (n + 1) tc.free_lists batch.contents batch.max_len =
                specRefill n (tc.free_lists.set k fl2) (batch.contents ++ [pf.1])
                  batch.max_len := by
              rw [specRefill_succ]
              simp only [hLNE, hget, hpop]
              rw [if_neg (by omega)]
            rw [h1, h2]
            have := ih { tc with
                free_lists := tc.free_lists.set k fl2
                full_num := if pf.2 then tc.full_num - 1 else tc.full_num } batch2
              (by rw [hp2]; exact hpad) (by rw [hm2]; exact hml)
              (by rw [hl2]; omega) (by simpa using hlen)
            rw [hm2, hc2] at this
            exact this

/-! Claim C5. -/

/-- C5 counterexample: two non-empty bounded lists where list 0 has color
10 and list 1 has color 0.  `hot` selects index 1 — the LAST non-empty
list, not the one with the largest color — and the first object that
`alloc_batch` collects (contents index 0) is 555 from list 1. -/
theorem C5_counterexample :
    TransferCache.hot
      { TransferCache.new with
        free_lists := [⟨[111], 1, 4, 10, 0, 100⟩, ⟨[555], 1, 4, 0, 0, 100⟩]
        size_class_idx := 0 } = some 1 ∧
    ((⟨[111], 1, 4, 10, 0, 100⟩ : BoundedList).color = 10 ∧
      (⟨[111], 1, 4, 10, 0, 100⟩ : BoundedList).is_empty = false) ∧
    ((⟨[555], 1, 4, 0, 0, 100⟩ : BoundedList).color = 0 ∧
      (⟨[555], 1, 4, 0, 0, 100⟩ : BoundedList).is_empty = false) ∧
    (10 : Nat) > 0 ∧
    ((TransferCache.alloc_batch
        { TransferCache.new with
          free_lists := [⟨[111], 1, 4, 10, 0, 100⟩, ⟨[555], 1, 4, 0, 0, 100⟩]
          size_class_idx := 0 }).bind fun tc2 =>
      tc2.transfer_batch.map fun batch => batch.contents) = some [555, 111] := by
  refine ⟨by decide, ⟨rfl, rfl⟩, ⟨rfl, rfl⟩, by decide, by decide⟩

/-- C5 amended: `hot` returns the last non-empty bounded list in
iteration order (the color comparison is commented out in the source, so
`color` plays no role in the choice), and the batch-assembly loop — run
on any fuel, with a well-formed batch — is exactly the loop which
repeatedly pops from the last non-empty list until `max_len` (the
`num_to_move` clamp) objects are collected or every list is empty; the
last non-empty index really is last: every later list is empty. -/
theorem C5_amended : ∀ (tc : TransferCache) (batch : TransferBatch) (fuel : Nat),
    batch.padding.length = 32 → batch.max_len ≤ 32 → batch.len < 32 →
    tc.free_lists.length ≤ K_MAX_NUMBER_SPAN →
    tc.hot = lastNonEmptyIdx tc.free_lists ∧
    ((allocLoop tc batch fuel).map (fun r => (r.1.free_lists, r.2.contents)) =
      specRefill fuel tc.free_lists batch.contents batch.max_len) ∧
    (∀ j, lastNonEmptyIdx tc.free_lists = some j →
      ∃ fl, tc.free_lists[j]? = some fl ∧ fl.is_empty = false ∧
        ∀ (i : Nat) (fli : BoundedList), j < i → tc.free_lists[i]? = some fli →
          fli.is_empty = true) := by
  intro tc batch fuel hpad hml hlt hlen
  exact ⟨hot_eq_lastNonEmpty tc hlen,
    allocLoop_eq_specRefill fuel tc batch hpad hml hlt hlen,
    fun j hj => lastNonEmptyIdx_spec tc.free_lists j hj⟩

/-- C5 amended, witness: the theorem applied at the two-list cache of the
counterexample with a fresh 32-slot batch and fuel 3. -/
theorem C5_amended_witness :
    TransferCache.hot
      { TransferCache.new with
        free_lists := [⟨[111], 1, 4, 10, 0, 100⟩, ⟨[555], 1, 4, 0, 0, 100⟩]
        size_class_idx := 0 } =
      lastNonEmptyIdx [⟨[111], 1, 4, 10, 0, 100⟩, ⟨[555], 1, 4, 0, 0, 100⟩] ∧
    ((allocLoop
        { TransferCache.new with
          free_lists := [⟨[111], 1, 4, 10, 0, 100⟩, ⟨[555], 1, 4, 0, 0, 100⟩]
          size_class_idx := 0 } (TransferBatch.new 32) 3).map
        (fun r => (r.1.free_lists, r.2.contents)) =
      specRefill 3 [⟨[111], 1, 4, 10, 0, 100⟩, ⟨[555], 1, 4, 0, 0, 100⟩]
        (TransferBatch.new 32).contents (TransferBatch.new 32).max_len) ∧
    (∀ j, lastNonEmptyIdx [⟨[111], 1, 4, 10, 0, 100⟩, ⟨[555], 1, 4, 0, 0, 100⟩] = some j →
      ∃ fl, ([⟨[111], 1, 4, 10, 0, 100⟩, ⟨[555], 1, 4, 0, 0, 100⟩] :
          List BoundedList)[j]? = some fl ∧ fl.is_empty = false ∧
        ∀ (i : Nat) (fli : BoundedList), j < i →
          ([⟨[111], 1, 4, 10, 0, 100⟩, ⟨[555], 1, 4, 0, 0, 100⟩] :
            List BoundedList)[i]? = some fli → fli.is_empty = true) :=
  C5_amended
    { TransferCache.new with
      free_lists := [⟨[111], 1, 4, 10, 0, 100⟩, ⟨[555], 1, 4, 0, 0, 100⟩]
      size_class_idx := 0 }
    (TransferBatch.new 32) 3 (by decide) (by decide) (by decide) (by decide)

end Heap
